import Mathlib

/-!
Verification of the geofetch metadata reconciliation core
(`geofetch/geofetch.py`): the SOFT-format sample parser and its GSM→SRX
re-keying, the run-info reconciler `_process_sra_meta` with its split /
non-split multi-run policies, the common-attribute factorizer
`_separate_common_meta`, the annotation and subannotation table writers,
and the dict/list converter `_dict_to_list_convector`.

Python `dict`s are modelled as insertion-ordered association lists
(`List (String × α)`): assignment to an existing key updates it in place,
assignment to a fresh key appends, `del` removes the key, and lookup finds
the (unique) binding.  SOFT attribute values are strings, `None`, or lists
(the scalar→list promotion of repeated keys), modelled by `Val`.
Uncaught Python exceptions are modelled by `Option`/explicit error results.
-/

set_option maxHeartbeats 1000000

/-- A Python value stored in a sample's attribute bag: a string, `None`,
or a list produced by the repeated-attribute promotion.  The promotion in
`_read_gsm_metadata` only ever puts strings (parsed SOFT values) and the
pre-existing scalar (a string or `None`) into such a list, so list
elements are `Option String` (`none` models Python `None`). -/
inductive Val where
  | vnone : Val
  | vstr (s : String) : Val
  | vlist (l : List (Option String)) : Val
deriving DecidableEq, Repr

/-- Lookup in an insertion-ordered association list (Python `d[k]` / `k in d`). -/
def lookupA {α : Type} (k : String) : List (String × α) → Option α
  | [] => none
  | (k', v) :: t => if k' = k then some v else lookupA k t

/-- Python `d[k] = v`: update in place when the key exists, else append. -/
def setA {α : Type} (k : String) (v : α) : List (String × α) → List (String × α)
  | [] => [(k, v)]
  | (k', v') :: t => if k' = k then (k, v) :: t else (k', v') :: setA k v t

/-- Python `del d[k]` (no-op here when the key is absent; the callers catch
`KeyError` at every `del` site modelled with this function). -/
def eraseA {α : Type} (k : String) : List (String × α) → List (String × α)
  | [] => []
  | (k', v') :: t => if k' = k then t else (k', v') :: eraseA k t

/-- The keys of an association list, in order. -/
def keysOf {α : Type} (m : List (String × α)) : List String := m.map Prod.fst

@[simp] theorem keysOf_nil {α : Type} : keysOf ([] : List (String × α)) = [] := rfl

@[simp] theorem keysOf_cons {α : Type} (p : String × α) (t : List (String × α)) :
    keysOf (p :: t) = p.1 :: keysOf t := rfl

theorem lookupA_setA_self {α : Type} (k : String) (v : α) (m : List (String × α)) :
    lookupA k (setA k v m) = some v := by
  induction m with
  | nil => simp [setA, lookupA]
  | cons h t ih =>
    obtain ⟨a, b⟩ := h
    by_cases hk : a = k <;> simp [setA, lookupA, hk, ih]

theorem lookupA_setA_ne {α : Type} {a b : String} (h : a ≠ b) (v : α)
    (m : List (String × α)) : lookupA b (setA a v m) = lookupA b m := by
  induction m with
  | nil => simp [setA, lookupA, h]
  | cons hd t ih =>
    obtain ⟨c, w⟩ := hd
    by_cases hc : c = a
    · subst hc
      simp [setA, lookupA, h]
    · simp [setA, hc, lookupA, ih]

theorem lookupA_eraseA_ne {α : Type} {a b : String} (h : a ≠ b)
    (m : List (String × α)) : lookupA b (eraseA a m) = lookupA b m := by
  induction m with
  | nil => simp [eraseA]
  | cons hd t ih =>
    obtain ⟨c, w⟩ := hd
    by_cases hc : c = a
    · subst hc
      simp [eraseA, lookupA, h]
    · simp [eraseA, hc, lookupA, ih]

theorem lookupA_eq_none_iff {α : Type} (k : String) (m : List (String × α)) :
    lookupA k m = none ↔ k ∉ keysOf m := by
  induction m with
  | nil => simp [lookupA]
  | cons hd t ih =>
    obtain ⟨c, w⟩ := hd
    by_cases hc : c = k
    · subst hc
      simp [lookupA]
    · have hc2 : ¬ k = c := fun hh => hc hh.symm
      simp [lookupA, hc, ih, hc2]

theorem lookupA_eraseA_self {α : Type} (k : String) (m : List (String × α))
    (hnd : (keysOf m).Nodup) : lookupA k (eraseA k m) = none := by
  induction m with
  | nil => simp [eraseA, lookupA]
  | cons hd t ih =>
    obtain ⟨c, w⟩ := hd
    simp only [keysOf_cons, List.nodup_cons] at hnd
    by_cases hc : c = k
    · subst hc
      simp only [eraseA, if_pos rfl]
      exact (lookupA_eq_none_iff c t).mpr hnd.1
    · simp only [eraseA, if_neg hc, lookupA, if_neg hc]
      exact ih hnd.2

theorem lookupA_append {α : Type} (k : String) (m₁ m₂ : List (String × α)) :
    lookupA k (m₁ ++ m₂) = ((lookupA k m₁).or (lookupA k m₂)) := by
  induction m₁ with
  | nil => simp [lookupA, Option.or]
  | cons hd t ih =>
    obtain ⟨c, w⟩ := hd
    by_cases hc : c = k <;> simp [lookupA, hc, ih, Option.or]

theorem keysOf_setA_mem {α : Type} (k : String) (v : α) (m : List (String × α))
    (h : k ∈ keysOf m) : keysOf (setA k v m) = keysOf m := by
  induction m with
  | nil => simp at h
  | cons hd t ih =>
    obtain ⟨c, w⟩ := hd
    by_cases hc : c = k
    · simp [setA, hc]
    · simp only [keysOf_cons, List.mem_cons] at h
      rcases h with h | h
      · exact absurd h.symm hc
      · simp [setA, hc, ih h]

theorem setA_absent_eq_append {α : Type} (k : String) (v : α)
    (m : List (String × α)) (h : lookupA k m = none) :
    setA k v m = m ++ [(k, v)] := by
  induction m with
  | nil => simp [setA]
  | cons hd t ih =>
    obtain ⟨c, w⟩ := hd
    simp only [lookupA] at h
    by_cases hc : c = k
    · simp [hc] at h
    · simp only [if_neg hc] at h
      simp [setA, hc, ih h]

/-- Python `str.rstrip()` (strip trailing whitespace). -/
def rstrip (s : String) : String :=
  String.mk (s.data.reverse.dropWhile Char.isWhitespace).reverse

/-- Trim whitespace from both ends (Python `str.strip()`). -/
def trimStr (s : String) : String :=
  String.mk
    (((s.data.dropWhile Char.isWhitespace).reverse.dropWhile
      Char.isWhitespace).reverse)

/-- Lower-case every character (Python `str.lower()` on ASCII). -/
def toLowerStr (s : String) : String := String.mk (s.data.map Char.toLower)

/-- The first character of a line (Python `line[0]`; the callers guard
against the empty line). -/
def firstChar (s : String) : Char := s.data.headD (Char.ofNat 0)

/-- Split a character list at the first `'='`, returning the two sides. -/
def splitFirstEq : List Char → Option (List Char × List Char)
  | [] => none
  | c :: rest =>
    if c = '=' then some ([], rest)
    else (splitFirstEq rest).map (fun p => (c :: p.1, p.2))

/-- Modelled from the spec: `parse_SOFT_line` lives in `geofetch/utils.py`,
which is not under `src/`.  Spec §4.1: given one line, split on the first
`=`; the key is the left token (sigil `^`/`!` stripped, trimmed); the value
is the left-trimmed remainder; the parse fails when no `=` is present
(the caller decides whether to skip the line or abort). -/
def parseSOFTLine (l : String) : Option (String × String) :=
  let cs :=
    match l.data with
    | '^' :: r => r
    | '!' :: r => r
    | r => r
  (splitFirstEq cs).map fun p =>
    (trimStr (String.mk p.1), String.mk (p.2.dropWhile Char.isWhitespace))

/-- Leading decimal digits of a character list, capped at 8 (the regex
quantifier's upper bound). -/
def srxDigits (cs : List Char) : List Char :=
  (cs.takeWhile Char.isDigit).take 8

/-- Modelled from the spec: `EXPERIMENT_PATTERN` lives in
`geofetch/const.py`, which is not under `src/`.  Spec §4.2: an embedded
experiment-accession token is `SRX` followed by 4–8 digits; `re.findall`
followed by `found[0]` yields the first (leftmost, greedy) match. -/
def findSRXAux : List Char → Option String
  | [] => none
  | c :: rest =>
    match c :: rest with
    | 'S' :: 'R' :: 'X' :: tl =>
      let d := srxDigits tl
      if 4 ≤ d.length then some (String.mk ('S' :: 'R' :: 'X' :: d))
      else findSRXAux rest
    | _ => findSRXAux rest

/-- First `SRX<4-8 digits>` token embedded in a line, if any. -/
def findSRX (s : String) : Option String := findSRXAux s.data

/-- One sample's attribute bag. -/
abbrev Bag := List (String × Val)

/-- The initial fields of a freshly created sample record
(`_read_gsm_metadata`, lines 1964–1972). -/
def initBag : Bag :=
  [("sample_name", .vstr ""), ("protocol", .vstr ""), ("organism", .vstr ""),
   ("read_type", .vstr ""), ("data_source", .vnone), ("SRR", .vnone),
   ("SRX", .vnone)]

/-- Merge one parsed attribute into the bag (`_read_gsm_metadata`,
lines 1985–1995): promote an existing scalar to a two-element list,
append to an existing list, else set directly (appending the new key). -/
def mergeAttr (bag : Bag) (k : String) (v : String) : Bag :=
  match lookupA k bag with
  | some (.vlist l) => setA k (.vlist (l ++ [some v])) bag
  | some (.vstr s) => setA k (.vlist [some s, some v]) bag
  | some .vnone => setA k (.vlist [none, some v]) bag
  | none => bag ++ [(k, .vstr v)]

/-- State of the SOFT parsing state machine of `_read_gsm_metadata`:
the accumulating metadata mapping, the current sample id (`None` when
idle or after a filtered-out delimiter), whether the current sample has
already been re-keyed to an SRX accession, and the list of samples seen. -/
structure ParseState where
  meta : List (String × Bag)
  current : Option String
  srx : Bool
  samples : List String
deriving DecidableEq, Repr

/-- One iteration of the `_read_gsm_metadata` loop (lines 1949–2008) on a
raw line.  `flt` is the GSM selection filter's key list
(`GSM_limit_list`).  `none` models an uncaught exception: a malformed or
non-`SAMPLE` delimiter line, or an attribute line whose current sample id
is missing from the mapping. -/
def processLine (flt : List String) (st : ParseState) (line0 : String) :
    Option ParseState :=
  let line := rstrip line0
  if line.length = 0 then some st
  else if firstChar line = '^' then
    match parseSOFTLine line with
    | none => none
    | some (k, v) =>
      if k = "SAMPLE" then
        if flt.length > 0 ∧ ¬ v ∈ flt then
          some { st with current := none }
        else
          some { meta := setA v initBag st.meta, current := some v,
                 srx := false, samples := st.samples ++ [v] }
      else none
  else
    match st.current with
    | none => some st
    | some cur =>
      match parseSOFTLine line with
      | none => some st
      | some (k, v) =>
        match lookupA cur st.meta with
        | none => none
        | some bag =>
          let bag' := mergeAttr bag k v
          let m₁ := setA cur bag' st.meta
          if st.srx then some { st with meta := m₁ }
          else
            match findSRX line with
            | none => some { st with meta := m₁ }
            | some sid =>
              some { meta := setA sid (setA "gsm_id" (.vstr cur) bag')
                              (eraseA cur m₁),
                     current := some sid, srx := true, samples := st.samples }

/-- The whole `_read_gsm_metadata` parsing loop over the file content
(the trailing `_expand_metadata_list_in_dict` resolution is a separate,
later phase). -/
def processLines (flt : List String) (st : ParseState) (lines : List String) :
    Option ParseState :=
  lines.foldlM (processLine flt) st

/-- The initial state of the `_read_gsm_metadata` loop. -/
def initParseState : ParseState := ⟨[], none, false, []⟩

/-- A line that is not a sample delimiter (blank, or not starting with `^`
after stripping): processing it never leaves the current sample. -/
abbrev isSampleLine (line : String) : Prop :=
  (rstrip line).length = 0 ∨ firstChar (rstrip line) ≠ '^'

/-- A non-blank, non-delimiter line: an attribute line. -/
abbrev isAttrLine (line : String) : Prop :=
  (rstrip line).length ≠ 0 ∧ firstChar (rstrip line) ≠ '^'

/-- The accession carried by one line when it is a well-formed
`^SAMPLE = …` delimiter line, else `none`. -/
def delimAccOne (l : String) : Option String :=
  let l' := rstrip l
  if l'.length ≠ 0 ∧ firstChar l' = '^' then
    (parseSOFTLine l').bind fun kv =>
      if kv.1 = "SAMPLE" then some kv.2 else none
  else none

/-- The accessions appearing on well-formed `^SAMPLE = …` delimiter lines,
in file order. -/
def delimAccs (lines : List String) : List String :=
  lines.filterMap delimAccOne

/-- The characters of Python's `punctuation1` string in `_sanitize_name`
(quote, apostrophe, backtick and braces written via their code points). -/
def punct1 : List Char :=
  ['!', Char.ofNat 34, '#', '$', '%', '&', Char.ofNat 39, '(', ')', '*', ',',
   '.', '/', ':', ';', '<', '=', '>', '?', '@', '[', '\\', ']', '^', '_',
   Char.ofNat 96, Char.ofNat 123, '|', Char.ofNat 125, '~']

/-- One left-to-right, non-overlapping pass of Python's
`str.replace("__", "_")`. -/
def collapseDunder : List Char → List Char
  | '_' :: '_' :: rest => '_' :: collapseDunder rest
  | c :: rest => c :: collapseDunder rest
  | [] => []

/-- `_sanitize_name` (lines 1079–1090): replace each `punctuation1`
character with `_`, then spaces with `_`, then one pass of
`replace("__", "_")`. -/
def sanitizeName (s : String) : String :=
  let s1 := s.data.map fun c => if c ∈ punct1 then '_' else c
  let s2 := s1.map fun c => if c = ' ' then '_' else c
  String.mk (collapseDunder s2)

/-- One run-info row, with the fields `_process_sra_meta` reads. -/
structure SraRow where
  Experiment : String
  Run : String
  LibraryLayout : String
deriving DecidableEq, Repr

/-- State threaded through `_process_sra_meta`: the sample-record mapping
(`gsm_metadata`, mutated in place) and the linkage table
(`gsm_multi_table`). -/
structure SraState where
  meta : List (String × Bag)
  tab : List (String × List (List String))
deriving DecidableEq, Repr

/-- Sample-name resolution in `_process_sra_meta` (lines 434–443):
try `gsm_enter_dict[gsm_metadata[experiment]["gsm_id"]]` (`KeyError`
caught); if that produced nothing or the empty string, fall back to
`_sanitize_name` of the record's `Sample_title` (uncaught `KeyError` /
attribute errors modelled as `none`). -/
def resolveSampleName (enter : List (String × String)) (bag : Bag) :
    Option String :=
  let step1 : Option (Option String) :=
    match lookupA "gsm_id" bag with
    | some (.vstr g) => some (lookupA g enter)
    | some _ => none
    | none => some none
  match step1 with
  | none => none
  | some r =>
    let nm := r.getD ""
    if nm = "" then
      match lookupA "Sample_title" bag with
      | some (.vstr t) => some (sanitizeName t)
      | _ => none
    else some nm

/-- `_update_columns` (lines 1317–1359): set the computed fields from the
record's `Sample_*` attributes, refining the protocol for bisulfite
sequencing.  `none` models an uncaught `KeyError` on a missing
`Sample_*` field (or `.lower()` on a non-string). -/
def updateColumns (bag : Bag) (expName sampleName readType : String) :
    Option Bag :=
  match lookupA "Sample_library_selection" bag with
  | none => none
  | some sel =>
    match lookupA "Sample_organism_ch1" bag with
    | none => none
    | some org =>
      match lookupA "Sample_library_strategy" bag with
      | none => none
      | some strat =>
        let b := setA "SRX" (.vstr expName)
          (setA "data_source" (.vstr "SRA")
            (setA "organism" org
              (setA "read_type" (.vstr readType)
                (setA "protocol" sel
                  (setA "sample_name" (.vstr sampleName) bag)))))
        if strat = .vstr "Bisulfite-Seq" then
          match sel with
          | .vstr s =>
            let p := toLowerStr s
            if p = "reduced representation" then
              some (setA "protocol" (.vstr "RRBS") b)
            else if p = "random" then
              some (setA "protocol" (.vstr "WGBS") b)
            else some b
          | _ => none
        else some b

/-- Is the record's `SRR` field set (`gsm_metadata[experiment].get("SRR")
is not None`)? -/
def srrSet (bag : Bag) : Bool :=
  match lookupA "SRR" bag with
  | none => false
  | some .vnone => false
  | some _ => true

/-- One iteration of the `_process_sra_meta` loop (lines 425–493) on one
run-info row.  `split` is `self.split_experiments`; `enter` is
`gsm_enter_dict`.  `none` models an uncaught exception. -/
def processSraRow (split : Bool) (enter : List (String × String))
    (st : SraState) (row : SraRow) : Option SraState :=
  let exp := row.Experiment
  let run := row.Run
  match lookupA exp st.meta with
  | none => some st
  | some bag =>
    match resolveSampleName enter bag with
    | none => none
    | some name =>
      match updateColumns bag exp name row.LibraryLayout with
      | none => none
      | some bag' =>
        let m₁ := setA exp bag' st.meta
        if srrSet bag' then
          match lookupA "SRR" bag' with
          | some (.vstr srrOld) =>
            let tabStep : Option (List (String × List (List String))) :=
              if lookupA exp st.tab = none then
                some (st.tab ++ [(exp, [[name, exp, srrOld], [name, exp, run]])])
              else
                match lookupA exp st.tab with
                | some rowsT => some (setA exp (rowsT ++ [[name, exp, run]]) st.tab)
                | none => none
            match tabStep with
            | none => none
            | some tab₁ =>
              if split then
                match lookupA exp tab₁ with
                | none => none
                | some entry =>
                  let rep := entry.length
                  let newKey := exp ++ "_" ++ Nat.repr rep
                  match lookupA "sample_name" bag' with
                  | some (.vstr sn) =>
                    let clone := setA "SRR" (.vstr run)
                      (setA "sample_name" (.vstr (sn ++ "_" ++ Nat.repr rep)) bag')
                    some ⟨setA newKey clone m₁, tab₁⟩
                  | _ => none
              else
                some ⟨setA exp (setA "SRR" (.vstr "multi") bag') m₁, tab₁⟩
          | _ =>
            -- `SRR` set but not a string: the seed branch is skipped and
            -- `gsm_multi_table[experiment].append` raises `KeyError` when
            -- the entry is absent.
            match lookupA exp st.tab with
            | some rowsT =>
              let tab₁ := setA exp (rowsT ++ [[name, exp, run]]) st.tab
              if split then
                match lookupA exp tab₁, lookupA "sample_name" bag' with
                | some entry, some (.vstr sn) =>
                  let rep := entry.length
                  let newKey := exp ++ "_" ++ Nat.repr rep
                  let clone := setA "SRR" (.vstr run)
                    (setA "sample_name" (.vstr (sn ++ "_" ++ Nat.repr rep)) bag')
                  some ⟨setA newKey clone m₁, tab₁⟩
                | _, _ => none
              else
                some ⟨setA exp (setA "SRR" (.vstr "multi") bag') m₁, tab₁⟩
            | none => none
        else
          some ⟨setA exp (setA "SRR" (.vstr run) bag') m₁, st.tab⟩

/-- `_process_sra_meta` (lines 423–494): fold the run-info rows over the
sample-record mapping, starting from an empty linkage table; returns the
mutated mapping and the linkage table. -/
def processSraMeta (split : Bool) (enter : List (String × String))
    (meta : List (String × Bag)) (rows : List SraRow) :
    Option (List (String × Bag) × List (String × List (List String))) :=
  (rows.foldlM (processSraRow split enter) ⟨meta, []⟩).map fun st =>
    (st.meta, st.tab)

/-- The run ids of the rows belonging to one experiment, in input order. -/
def runsOf (exp : String) (rows : List SraRow) : List String :=
  (rows.filter fun r => r.Experiment == exp).map SraRow.Run

/-- A sample row at the factorizer/writer stage: by this point all
attribute values are strings. -/
abbrev Row := List (String × String)

/-- `_get_list_of_keys` (lines 789–800): the union of the keys of all
rows.  Python returns `list(set(...))`, whose iteration order is
unspecified; it is modelled here as first-seen order.  Every property
proved below is insensitive to this order: each key's treatment in
`_separate_common_meta` and `_standardize_colnames` is decided
independently of the others. -/
def getListOfKeys (rows : List Row) : List String :=
  ((rows.map keysOf).flatten).foldl
    (fun acc k => if k ∈ acc then acc else acc ++ [k]) []

/-- The inner loop of the common-value detection of
`_separate_common_meta` (lines 1137–1140): scan the remaining samples,
flagging the key as "different" at the first sample whose value differs
from the first sample's; samples lacking the key are skipped
(`KeyError` → `pass`). -/
def strDiffAux (k v : String) : List Row → Bool
  | [] => false
  | r :: rs =>
    match lookupA k r with
    | some w => if w ≠ v then true else strDiffAux k v rs
    | none => strDiffAux k v rs

/-- The common-value detection of `_separate_common_meta`
(lines 1128–1144): a key is flagged "different" (not hoisted) when the
first sample's value is shorter than both `max_len` and `del_limit`, or
when some later sample's value differs from the first sample's.  When the
first sample lacks the key, `value` keeps its initial `""`. -/
def isDiffKey (maxLen delLimit : Nat) (rows : List Row) (k : String) : Bool :=
  match rows with
  | [] => false
  | r0 :: rest =>
    match lookupA k r0 with
    | some v =>
      if v.length < maxLen && v.length < delLimit then true
      else strDiffAux k v rest
    | none => strDiffAux k "" rest

/-- The value of `k` in the first row that has it (the `first_key`
protocol of lines 1149–1160: `KeyError` → `pass` keeps `first_key`
true). -/
def firstWith (k : String) : List Row → Option String
  | [] => none
  | r :: rs =>
    match lookupA k r with
    | some v => some v
    | none => firstWith k rs

/-- Is a character one of `A–Z`, `a–z`, `0–9` (the class `[A-Za-z0-9]`)? -/
def isAlnum (c : Char) : Bool := c.isAlpha || c.isDigit

/-- `re.sub("[^A-Za-z0-9]+", " ", s)`: collapse each run of
non-alphanumeric characters to a single space. -/
def collapseNonAlnum : List Char → List Char
  | [] => []
  | c :: rest =>
    if isAlnum c then c :: collapseNonAlnum rest
    else ' ' :: collapseNonAlnum (rest.dropWhile fun d => !(isAlnum d))
termination_by l => l.length
decreasing_by
  all_goals simp_wf
  have h2 : (rest.dropWhile fun d => !(isAlnum d)).length ≤ rest.length :=
    List.Sublist.length_le (List.dropWhile_sublist _)
  omega

/-- Sanitization of a hoisted common value (lines 1156–1158): strip
embedded `"` characters, then collapse runs of non-alphanumerics to a
single space. -/
def sanitizeCommon (s : String) : String :=
  String.mk (collapseNonAlnum (s.data.filter fun c => c ≠ Char.ofNat 34))

/-- The hoist decision for one non-"different" key (lines 1149–1160):
from the first sample that has the key, record `{key: sanitized value}`
when the value's length is at most `del_limit`, else record nothing. -/
def hoistValue (delLimit : Nat) (rows : List Row) (k : String) :
    List (String × String) :=
  match firstWith k rows with
  | none => []
  | some v => if v.length ≤ delLimit then [(k, sanitizeCommon v)] else []

/-- The hoist-and-delete loop of `_separate_common_meta`
(lines 1147–1163), one key at a time in `list_of_keys` order: keys
flagged "different" are left alone; other keys are hoisted (per
`hoistValue`) and deleted from every sample that has them. -/
def deletePhaseGo (delLimit : Nat) (diff : String → Bool) :
    List String → List Row → List Row × List (String × String)
  | [], rows => (rows, [])
  | k :: ks, rows =>
    if diff k then deletePhaseGo delLimit diff ks rows
    else
      let h := hoistValue delLimit rows k
      let rows' := rows.map (eraseA k)
      let res := deletePhaseGo delLimit diff ks rows'
      (res.1, h ++ res.2)

/-- The truncation of one value (lines 1169–1173): values shorter than
`attr_limit_truncate` are kept; others are cut to their first
`attr_limit_truncate` characters with an ellipsis marker appended. -/
def truncVal (truncLimit : Nat) (v : String) : String :=
  if v.length < truncLimit then v
  else String.mk (v.data.take truncLimit) ++ " ..."

/-- The truncation pass of `_separate_common_meta` (lines 1165–1176). -/
def truncPhase (truncLimit : Nat) (rows : List Row) : List Row :=
  rows.map fun r => r.map fun kv => (kv.1, truncVal truncLimit kv.2)

/-- `_separate_common_meta` (lines 1102–1180) on a list of sample rows:
detect "different" keys, hoist-and-delete the others, then truncate the
remaining values.  Returns the new sample rows and the project-attribute
list. -/
def separateCommonMeta (rows : List Row) (maxLen delLimit truncLimit : Nat) :
    List Row × List (String × String) :=
  let keys := getListOfKeys rows
  let diff := fun k => isDiffKey maxLen delLimit rows k
  let res := deletePhaseGo delLimit diff keys rows
  (truncPhase truncLimit res.1, res.2)

/-- `_dict_to_list_convector(proj_dict=…)` (lines 1223–1230): turn the
mapping into a list of rows, stamping each row's `big_key` with its key. -/
def dictToListD (d : List (String × Row)) : List Row :=
  d.map fun kr => setA "big_key" kr.1 kr.2

/-- `_dict_to_list_convector(proj_list=…)` (lines 1232–1236): rebuild the
mapping keyed by each row's `big_key` (uncaught `KeyError` when a row
lacks it, modelled as `none`). -/
def listToDictL (l : List Row) : Option (List (String × Row)) :=
  l.foldlM
    (fun acc r =>
      match lookupA "big_key" r with
      | some k => some (setA k r acc)
      | none => none)
    []

/-- `_write_gsm_annotation` (lines 835–856) as a pure table: the header is
the FIRST record's key list; each row is rendered against that header by
`csv.DictWriter` with `extrasaction="ignore"` and the default
`restval=''`: extra keys are dropped, missing keys become the empty
string.  `none` models the `IndexError` on an empty mapping. -/
def writeGsmAnnotTable (meta : List (String × Row)) :
    Option (List String × List (List String)) :=
  match meta with
  | [] => none
  | (k0, r0) :: rest =>
    let hdr := keysOf r0
    some (hdr, ((k0, r0) :: rest).map fun kr =>
      hdr.map fun k => (lookupA k kr.2).getD "")

/-- `_write_subannotation` (lines 1400–1425) as a pure table: the default
header row followed by every experiment's triples in table order. -/
def writeSubannotTable (tab : List (String × List (List String))) :
    List (List String) :=
  ["sample_name", "SRX", "SRR"] :: (tab.map Prod.snd).flatten

/-- `_standardize_colnames` (lines 1182–1211) on a mapping: convert to a
list (stamping `big_key`), rebuild each row with keys lower-cased,
trimmed and `_sanitize_name`d (missing keys skipped), convert back. -/
def standardizeColnamesDict (meta : List (String × Row)) :
    Option (List (String × Row)) :=
  let lst := dictToListD meta
  let keys := getListOfKeys lst
  let newList := lst.map fun r =>
    keys.foldl
      (fun acc k =>
        match lookupA k r with
        | some v => setA (sanitizeName (trimStr (toLowerStr k))) v acc
        | none => acc)
      []
  listToDictL newList

/-- `_check_sample_name_standard` (lines 1061–1076): fill an empty
`sample_name` from `Sample_title` (uncaught `KeyError` when either is
missing, modelled as `none`), sanitize it, then standardize column
names. -/
def checkSampleNameStandard (meta : List (String × Row)) :
    Option (List (String × Row)) :=
  (meta.mapM fun (kr : String × Row) =>
      match lookupA "sample_name" kr.2 with
      | none => none
      | some s =>
        let s2 := if s = "" then lookupA "Sample_title" kr.2 else some s
        match s2 with
        | none => none
        | some t => some (kr.1, setA "sample_name" (sanitizeName t) kr.2))
    |>.bind standardizeColnamesDict

/-- `_separate_common_meta` on a mapping (the `input_is_dict` path,
lines 1119–1123 and 1178–1179): convert to a list, factor, convert
back. -/
def separateCommonMetaDict (meta : List (String × Row))
    (maxLen delLimit truncLimit : Nat) :
    Option (List (String × Row) × List (String × String)) :=
  let lst := dictToListD meta
  let res := separateCommonMeta lst maxLen delLimit truncLimit
  (listToDictL res.1).map fun d => (d, res.2)

/-- Outcome of `_write_raw_annotation_new`: the explicit "no data" `None`
return, an uncaught exception in a later step, or the produced tables
(sample annotation, project attributes, and the optional subannotation
table). -/
inductive RawAnnotResult where
  | noData : RawAnnotResult
  | error : RawAnnotResult
  | ok (sampleCsv : List String × List (List String))
      (projMeta : List (String × String))
      (subannCsv : Option (List (List String))) : RawAnnotResult
deriving DecidableEq, Repr

/-- `_write_raw_annotation_new` (lines 928–1013), file-system and YAML
templating aside: the `assert len(metadata_dict) > 0` gate returns the
"no data" signal; otherwise the pipeline runs `_check_sample_name_standard`,
`_separate_common_meta`, `_write_gsm_annotation`, and writes the
subannotation table exactly when `subannot_dict` is non-empty
(lines 972–985). -/
def writeRawAnnotationNew (maxLen delLimit truncLimit : Nat)
    (metadataDict : List (String × Row))
    (subannotDict : List (String × List (List String))) : RawAnnotResult :=
  if metadataDict.length = 0 then .noData
  else
    match checkSampleNameStandard metadataDict with
    | none => .error
    | some md₁ =>
      match separateCommonMetaDict md₁ maxLen delLimit truncLimit with
      | none => .error
      | some (md₂, projMeta) =>
        match writeGsmAnnotTable md₂ with
        | none => .error
        | some csv =>
          .ok csv projMeta
            (if subannotDict.length = 0 then none
             else some (writeSubannotTable subannotDict))

/-! Injectivity of `Nat.repr` (needed for the distinctness of the
synthetic `<SRX>_<n>` record keys built with `str(rep_number)`). -/

/-- The decimal characters of `n`, most significant first. -/
def decChars (n : Nat) : List Char :=
  if n = 0 then ['0'] else ((Nat.digits 10 n).map Nat.digitChar).reverse

theorem toDigitsCore_eq_decChars (f : Nat) :
    ∀ (n : Nat) (acc : List Char), n < f →
      Nat.toDigitsCore 10 f n acc = decChars n ++ acc := by
  induction f with
  | zero => intro n acc h; omega
  | succ f ih =>
    intro n acc h
    by_cases h10 : n / 10 = 0
    · have hn10 : n < 10 := (Nat.div_eq_zero_iff (by omega)).mp h10
      by_cases hz : n = 0
      · subst hz
        simp [Nat.toDigitsCore, decChars, Nat.digitChar]
      · have hd : Nat.digits 10 n = [n % 10] := by
          rw [Nat.digits_def' (by omega : 1 < 10) (Nat.pos_of_ne_zero hz), h10]
          simp
        simp [Nat.toDigitsCore, h10, decChars, hz, hd]
    · have hz : n ≠ 0 := by
        intro hz; rw [hz] at h10; simp at h10
      have hlt : n / 10 < n := Nat.div_lt_self (Nat.pos_of_ne_zero hz) (by omega)
      have hf : n / 10 < f := by omega
      have hrec := ih (n / 10) (Nat.digitChar (n % 10) :: acc) hf
      simp only [Nat.toDigitsCore, if_neg h10]
      rw [hrec]
      have hd : Nat.digits 10 n = n % 10 :: Nat.digits 10 (n / 10) :=
        Nat.digits_def' (by omega : 1 < 10) (Nat.pos_of_ne_zero hz)
      simp [decChars, hz, h10, hd]

theorem natRepr_eq_decChars (n : Nat) : Nat.repr n = (decChars n).asString := by
  unfold Nat.repr Nat.toDigits
  rw [toDigitsCore_eq_decChars (n + 1) n [] (Nat.lt_succ_self n)]
  simp

theorem digitChar_inj_lt : ∀ a < 10, ∀ b < 10,
    Nat.digitChar a = Nat.digitChar b → a = b := by decide

theorem map_digitChar_inj : ∀ (l₁ l₂ : List Nat), (∀ x ∈ l₁, x < 10) →
    (∀ x ∈ l₂, x < 10) → l₁.map Nat.digitChar = l₂.map Nat.digitChar → l₁ = l₂ := by
  intro l₁
  induction l₁ with
  | nil => intro l₂ _ _ h; cases l₂ <;> simp_all
  | cons x t ih =>
    intro l₂ h₁ h₂ h
    cases l₂ with
    | nil => simp at h
    | cons y t₂ =>
      simp only [List.map_cons, List.cons.injEq] at h
      have hx := h₁ x (List.mem_cons_self x t)
      have hy := h₂ y (List.mem_cons_self y t₂)
      have hxy := digitChar_inj_lt x hx y hy h.1
      subst hxy
      have ht := ih t₂ (fun z hz => h₁ z (List.mem_cons_of_mem x hz))
        (fun z hz => h₂ z (List.mem_cons_of_mem x hz)) h.2
      rw [ht]

theorem decChars_injective : Function.Injective decChars := by
  intro a b h
  by_cases ha : a = 0 <;> by_cases hb : b = 0
  · omega
  · exfalso
    simp only [decChars, if_pos ha, if_neg hb] at h
    have h2 : (Nat.digits 10 b).map Nat.digitChar = ['0'] := by
      have := congrArg List.reverse h
      simpa using this.symm
    have h3 : Nat.digits 10 b = [0] := by
      apply map_digitChar_inj _ [0]
      · intro x hx
        exact Nat.digits_lt_base (by omega) hx
      · simp
      · simpa using h2
    have h4 := Nat.ofDigits_digits 10 b
    rw [h3] at h4
    simp [Nat.ofDigits] at h4
    exact hb h4.symm
  · exfalso
    simp only [decChars, if_neg ha, if_pos hb] at h
    have h2 : (Nat.digits 10 a).map Nat.digitChar = ['0'] := by
      have := congrArg List.reverse h
      simpa using this
    have h3 : Nat.digits 10 a = [0] := by
      apply map_digitChar_inj _ [0]
      · intro x hx
        exact Nat.digits_lt_base (by omega) hx
      · simp
      · simpa using h2
    have h4 := Nat.ofDigits_digits 10 a
    rw [h3] at h4
    simp [Nat.ofDigits] at h4
    exact ha h4.symm
  · simp only [decChars, if_neg ha, if_neg hb] at h
    have h2 := congrArg List.reverse h
    simp only [List.reverse_reverse] at h2
    have h3 : Nat.digits 10 a = Nat.digits 10 b := by
      apply map_digitChar_inj
      · intro x hx
        exact Nat.digits_lt_base (by omega) hx
      · intro x hx
        exact Nat.digits_lt_base (by omega) hx
      · exact h2
    have h4 := Nat.ofDigits_digits 10 a
    rw [h3, Nat.ofDigits_digits] at h4
    exact h4.symm

theorem natRepr_injective : Function.Injective Nat.repr := by
  intro a b h
  rw [natRepr_eq_decChars, natRepr_eq_decChars] at h
  apply decChars_injective
  have : (decChars a).asString.data = (decChars b).asString.data := by rw [h]
  simpa [List.asString] using this

/-! Generic association-list facts used by several claims. -/

theorem lookupA_some_mem_keys {α : Type} {k : String} {m : List (String × α)}
    {v : α} (h : lookupA k m = some v) : k ∈ keysOf m := by
  by_contra hmem
  rw [(lookupA_eq_none_iff k m).mpr hmem] at h
  exact Option.noConfusion h

theorem eraseA_absent {α : Type} (k : String) (m : List (String × α))
    (h : lookupA k m = none) : eraseA k m = m := by
  induction m with
  | nil => simp [eraseA]
  | cons hd t ih =>
    obtain ⟨c, w⟩ := hd
    simp only [lookupA] at h
    by_cases hc : c = k
    · simp [hc] at h
    · simp only [if_neg hc] at h
      simp [eraseA, hc, ih h]

theorem lookupA_none_eraseA_any {α : Type} (k k' : String)
    (m : List (String × α)) (h : lookupA k m = none) :
    lookupA k (eraseA k' m) = none := by
  by_cases hk : k' = k
  · subst hk
    rw [eraseA_absent k' m h]
    exact h
  · rw [lookupA_eraseA_ne hk]
    exact h

theorem keysOf_eraseA_sublist {α : Type} (k : String) (m : List (String × α)) :
    List.Sublist (keysOf (eraseA k m)) (keysOf m) := by
  induction m with
  | nil => simp [eraseA]
  | cons hd t ih =>
    obtain ⟨c, w⟩ := hd
    by_cases hc : c = k
    · simp only [eraseA, if_pos hc, keysOf_cons]
      exact List.sublist_cons_self c (keysOf t)
    · simp only [eraseA, if_neg hc, keysOf_cons]
      exact ih.cons₂ c

/-! ### Claim C10: `_dict_to_list_convector` round trip -/

theorem c10_convector_go (d : List (String × Row)) :
    ∀ acc : List (String × Row),
      (∀ kr ∈ d, lookupA "big_key" kr.2 = none) →
      (∀ kr ∈ d, lookupA kr.1 acc = none) →
      (d.map Prod.fst).Nodup →
      ((dictToListD d).foldlM
        (fun acc r =>
          match lookupA "big_key" r with
          | some k => some (setA k r acc)
          | none => none)
        acc : Option (List (String × Row)))
      = some (acc ++ d.map fun kr => (kr.1, kr.2 ++ [("big_key", kr.1)])) := by
  induction d with
  | nil => intro acc _ _ _; simp [dictToListD]
  | cons hd t ih =>
    intro acc hnb hfresh hnd
    obtain ⟨k, r⟩ := hd
    simp only [List.map_cons, List.nodup_cons] at hnd
    have hnbk : lookupA "big_key" r = none := hnb (k, r) (List.mem_cons_self _ _)
    have hset : setA "big_key" k r = r ++ [("big_key", k)] :=
      setA_absent_eq_append _ _ _ hnbk
    have hlk : lookupA "big_key" (r ++ [("big_key", k)]) = some k := by
      rw [lookupA_append, hnbk]
      simp [lookupA, Option.or]
    have hka : lookupA k acc = none := hfresh (k, r) (List.mem_cons_self _ _)
    have hsk : setA k (r ++ [("big_key", k)]) acc
        = acc ++ [(k, r ++ [("big_key", k)])] :=
      setA_absent_eq_append _ _ _ hka
    have hrec := ih (acc ++ [(k, r ++ [("big_key", k)])])
      (fun kr hm => hnb kr (List.mem_cons_of_mem _ hm))
      (fun kr hm => by
        rw [lookupA_append, hfresh kr (List.mem_cons_of_mem _ hm)]
        have hne : ¬ k = kr.1 := by
          intro hE
          exact hnd.1 (by rw [hE]; exact List.mem_map.mpr ⟨kr, hm, rfl⟩)
        simp [lookupA, Option.or, hne])
      hnd.2
    simp only [dictToListD, List.map_cons] at hrec ⊢
    rw [List.foldlM_cons]
    simp only [hset, hlk, Option.bind_eq_bind, Option.some_bind, hsk]
    rw [hrec]
    simp

/-- C10: for a mapping with pairwise distinct keys whose attribute bags do
not contain `big_key`, converting with `_dict_to_list_convector(proj_dict=…)`
and back with `_dict_to_list_convector(proj_list=…)` yields the same
mapping, each value extended with a `big_key` field holding its own key. -/
theorem c10_convector_roundtrip (d : List (String × Row))
    (hnb : ∀ kr ∈ d, lookupA "big_key" kr.2 = none)
    (hnd : (d.map Prod.fst).Nodup) :
    listToDictL (dictToListD d)
      = some (d.map fun kr => (kr.1, kr.2 ++ [("big_key", kr.1)])) := by
  unfold listToDictL
  rw [c10_convector_go d [] hnb (fun kr _ => rfl) hnd]
  simp

/-- Witness for C10 at a concrete two-sample mapping. -/
theorem c10_convector_roundtrip_witness :
    listToDictL (dictToListD [("GSM1", [("a", "1")]), ("GSM2", [("b", "2")])])
      = some [("GSM1", [("a", "1"), ("big_key", "GSM1")]),
              ("GSM2", [("b", "2"), ("big_key", "GSM2")])] :=
  c10_convector_roundtrip
    [("GSM1", [("a", "1")]), ("GSM2", [("b", "2")])]
    (by decide) (by decide)

/-! ### Claim C9: the empty-mapping gate of `_write_raw_annotation_new` -/

/-- C9: with an empty combined sample-record mapping the combined-table
step returns the explicit no-data signal (Python `None`) and produces no
output; with any non-empty mapping it proceeds past that gate (its result
is never the no-data signal). -/
theorem c9_empty_mapping_gate (maxLen delLimit truncLimit : Nat)
    (metadataDict : List (String × Row))
    (subannotDict : List (String × List (List String))) :
    (metadataDict = [] →
      writeRawAnnotationNew maxLen delLimit truncLimit metadataDict subannotDict
        = .noData) ∧
    (metadataDict ≠ [] →
      writeRawAnnotationNew maxLen delLimit truncLimit metadataDict subannotDict
        ≠ .noData) := by
  constructor
  · intro h
    subst h
    simp [writeRawAnnotationNew]
  · intro h
    have hlen : ¬ metadataDict.length = 0 := by
      simpa [List.length_eq_zero] using h
    simp only [writeRawAnnotationNew, if_neg hlen]
    cases hchk : checkSampleNameStandard metadataDict with
    | none => simp [hchk]
    | some md₁ =>
      cases hsep : separateCommonMetaDict md₁ maxLen delLimit truncLimit with
      | none => simp [hchk, hsep]
      | some p =>
        obtain ⟨md₂, projMeta⟩ := p
        cases hw : writeGsmAnnotTable md₂ with
        | none => simp [hchk, hsep, hw]
        | some csv => simp [hchk, hsep, hw]

/-- Witness for C9: the gate fires on the empty mapping and a one-sample
mapping proceeds. -/
theorem c9_empty_mapping_gate_witness :
    writeRawAnnotationNew 50 250 500 [] [] = .noData ∧
    writeRawAnnotationNew 50 250 500 [("SRX1", [("sample_name", "s")])] []
      ≠ .noData :=
  ⟨(c9_empty_mapping_gate 50 250 500 [] []).1 rfl,
   (c9_empty_mapping_gate 50 250 500 [("SRX1", [("sample_name", "s")])] []).2
     (by decide)⟩

/-! ### Claim C6: the sample-annotation table header -/

/-- Counterexample to C6: with a second sample carrying an extra
attribute `b`, the written header is the FIRST record's key list `["a"]`,
not the union `["a", "b"]` of all records' keys. -/
theorem c6_header_counterexample :
    (writeGsmAnnotTable [("s1", [("a", "1")]), ("s2", [("a", "1"), ("b", "2")])]).map
        Prod.fst = some ["a"] ∧
    getListOfKeys [[("a", "1")], [("a", "1"), ("b", "2")]] = ["a", "b"] ∧
    (["a"] : List String) ≠ ["a", "b"] := by decide

/-- C6 (amended): the header of the written sample annotation table is the
FIRST record's key list (in insertion order); every output row has exactly
one value per header column, where an attribute absent from a sample is
rendered as the empty string and attributes outside the header are
dropped. -/
theorem c6_header_first_record (meta : List (String × Row)) (k0 : String)
    (r0 : Row) (rest : List (String × Row)) (hdr : List String)
    (rows : List (List String)) (hm : meta = (k0, r0) :: rest)
    (hw : writeGsmAnnotTable meta = some (hdr, rows)) :
    hdr = keysOf r0 ∧
    rows = meta.map (fun kr => hdr.map fun k => (lookupA k kr.2).getD "") ∧
    ∀ row ∈ rows, row.length = hdr.length := by
  subst hm
  simp only [writeGsmAnnotTable, Option.some.injEq, Prod.mk.injEq] at hw
  obtain ⟨hh, hr⟩ := hw
  refine ⟨hh.symm, ?_, ?_⟩
  · rw [← hr, hh]
  · intro row hrow
    rw [← hr] at hrow
    obtain ⟨kr, _, hkr⟩ := List.mem_map.mp hrow
    rw [← hkr]
    simp [hh]

/-- Witness for C6 (amended) at a two-sample mapping whose second sample
lacks the header attribute. -/
theorem c6_header_first_record_witness :
    (["a"] : List String) = keysOf [("a", "1")] ∧
    [["1"], [""]] = ([("s1", [("a", "1")]), ("s2", [("b", "2")])].map
      (fun kr => ["a"].map fun k => (lookupA k kr.2).getD "")) ∧
    ∀ row ∈ [["1"], [""]], row.length = (["a"] : List String).length :=
  c6_header_first_record [("s1", [("a", "1")]), ("s2", [("b", "2")])] "s1"
    [("a", "1")] [("s2", [("b", "2")])] ["a"] [["1"], [""]] rfl (by decide)

/-! ### Factorizer lemmas (claims C5 and C8) -/

theorem strDiffAux_const (k v : String) (rest : List Row)
    (hall : ∀ r ∈ rest, lookupA k r = some v) :
    strDiffAux k v rest = false := by
  induction rest with
  | nil => rfl
  | cons r rs ih =>
    have hr := hall r (List.mem_cons_self _ _)
    simp only [strDiffAux, hr]
    simpa using ih fun r' hm => hall r' (List.mem_cons_of_mem _ hm)

theorem isDiffKey_const_false (mx dl : Nat) (k v : String) (r0 : Row)
    (rest : List Row) (h0 : lookupA k r0 = some v)
    (hall : ∀ r ∈ rest, lookupA k r = some v)
    (hlong : ¬ (v.length < mx ∧ v.length < dl)) :
    isDiffKey mx dl (r0 :: rest) k = false := by
  simp only [isDiffKey, h0]
  have hb : (decide (v.length < mx) && decide (v.length < dl)) = false := by
    rcases Nat.lt_or_ge v.length mx with h | h
    · rcases Nat.lt_or_ge v.length dl with h2 | h2
      · exact absurd ⟨h, h2⟩ hlong
      · simp [Nat.not_lt_of_ge h2]
    · simp [Nat.not_lt_of_ge h]
  simp only [hb, if_neg]
  simp only [Bool.false_eq_true, if_neg, not_false_eq_true]
  exact strDiffAux_const k v rest hall

theorem dedup_foldl_mem (l : List String) :
    ∀ (acc : List String) (x : String), (x ∈ acc ∨ x ∈ l) →
      x ∈ l.foldl (fun acc k => if k ∈ acc then acc else acc ++ [k]) acc := by
  induction l with
  | nil =>
    intro acc x h
    simpa using h.resolve_right (by simp)
  | cons k t ih =>
    intro acc x h
    simp only [List.foldl_cons]
    have hacc : ∀ y, y ∈ acc → y ∈ (if k ∈ acc then acc else acc ++ [k]) := by
      intro y hy
      by_cases hk : k ∈ acc <;> simp [hk, hy]
    have hk2 : k ∈ (if k ∈ acc then acc else acc ++ [k]) := by
      by_cases hk : k ∈ acc <;> simp [hk]
    rcases h with h | h
    · exact ih _ x (Or.inl (hacc x h))
    · rcases List.mem_cons.mp h with h | h
      · exact ih _ x (Or.inl (h ▸ hk2))
      · exact ih _ x (Or.inr h)

theorem mem_getListOfKeys (rows : List Row) (k : String) (r : Row)
    (hr : r ∈ rows) (hk : k ∈ keysOf r) : k ∈ getListOfKeys rows := by
  apply dedup_foldl_mem _ [] k
  right
  exact List.mem_flatten.mpr ⟨keysOf r, List.mem_map.mpr ⟨r, hr, rfl⟩, hk⟩

theorem firstWith_none (k : String) (rows : List Row)
    (h : ∀ r ∈ rows, lookupA k r = none) : firstWith k rows = none := by
  induction rows with
  | nil => rfl
  | cons r rs ih =>
    simp only [firstWith, h r (List.mem_cons_self _ _)]
    exact ih fun r' hm => h r' (List.mem_cons_of_mem _ hm)

theorem firstWith_of_erase_ne {a k : String} (h : a ≠ k) (rows : List Row) :
    firstWith k (rows.map (eraseA a)) = firstWith k rows := by
  induction rows with
  | nil => rfl
  | cons r rs ih =>
    simp only [List.map_cons, firstWith, lookupA_eraseA_ne h, ih]

theorem deletePhaseGo_rows_length (dl : Nat) (diff : String → Bool) :
    ∀ (ks : List String) (rows : List Row),
      ((deletePhaseGo dl diff ks rows).1).length = rows.length := by
  intro ks
  induction ks with
  | nil => intro rows; rfl
  | cons k' ks ih =>
    intro rows
    by_cases hd : diff k'
    · simp [deletePhaseGo, hd, ih]
    · simp [deletePhaseGo, hd, ih]

theorem deletePhaseGo_get_lookup (dl : Nat) (diff : String → Bool)
    (k : String) (hk : diff k = true) :
    ∀ (ks : List String) (rows : List Row) (i : Nat),
      (((deletePhaseGo dl diff ks rows).1[i]?).map (lookupA k))
        = (rows[i]?).map (lookupA k) := by
  intro ks
  induction ks with
  | nil => intro rows i; rfl
  | cons k' ks ih =>
    intro rows i
    by_cases hd : diff k'
    · simp only [deletePhaseGo, hd, if_pos]
      exact ih rows i
    · have hne : k' ≠ k := by
        intro hE
        rw [hE, hk] at hd
        exact hd rfl
      simp only [deletePhaseGo, hd, Bool.false_eq_true, if_neg,
        not_false_eq_true, ih]
      rw [List.getElem?_map]
      cases hi : rows[i]? with
      | none => rfl
      | some r => simp [lookupA_eraseA_ne hne]

theorem deletePhaseGo_rows_none (dl : Nat) (diff : String → Bool) (k : String) :
    ∀ (ks : List String) (rows : List Row),
      (∀ r ∈ rows, lookupA k r = none) →
      ∀ r ∈ (deletePhaseGo dl diff ks rows).1, lookupA k r = none := by
  intro ks
  induction ks with
  | nil => intro rows h; exact h
  | cons k' ks ih =>
    intro rows h
    by_cases hd : diff k'
    · simp only [deletePhaseGo, hd, if_pos]
      exact ih rows h
    · simp only [deletePhaseGo, hd, Bool.false_eq_true, if_neg, not_false_eq_true]
      apply ih
      intro r' hm
      obtain ⟨r, hr, hre⟩ := List.mem_map.mp hm
      rw [← hre]
      exact lookupA_none_eraseA_any k k' r (h r hr)

theorem deletePhaseGo_proj_none (dl : Nat) (diff : String → Bool)
    (k : String) (w : String) :
    ∀ (ks : List String) (rows : List Row),
      (∀ r ∈ rows, lookupA k r = none) →
      (k, w) ∉ (deletePhaseGo dl diff ks rows).2 := by
  intro ks
  induction ks with
  | nil => intro rows _; simp [deletePhaseGo]
  | cons k' ks ih =>
    intro rows h
    by_cases hd : diff k'
    · simp only [deletePhaseGo, hd, if_pos]
      exact ih rows h
    · simp only [deletePhaseGo, hd, Bool.false_eq_true, if_neg,
        not_false_eq_true, List.mem_append, not_or]
      constructor
      · by_cases hk' : k' = k
        · subst hk'
          simp [hoistValue, firstWith_none k' rows h]
        · have hk2 : ¬ k = k' := fun hE => hk' hE.symm
          simp only [hoistValue]
          cases firstWith k' rows with
          | none => simp
          | some v =>
            by_cases hlen : v.length ≤ dl <;> simp [hlen, hk2]
      · apply ih
        intro r' hm
        obtain ⟨r, hr, hre⟩ := List.mem_map.mp hm
        rw [← hre]
        exact lookupA_none_eraseA_any k k' r (h r hr)

theorem deletePhaseGo_proj_long (dl : Nat) (diff : String → Bool)
    (k w v : String) :
    ∀ (ks : List String) (rows : List Row),
      (∀ r ∈ rows, (keysOf r).Nodup) →
      firstWith k rows = some v → dl < v.length →
      (k, w) ∉ (deletePhaseGo dl diff ks rows).2 := by
  intro ks
  induction ks with
  | nil => intro rows _ _ _; simp [deletePhaseGo]
  | cons k' ks ih =>
    intro rows hwf hfw hlen
    by_cases hd : diff k'
    · simp only [deletePhaseGo, hd, if_pos]
      exact ih rows hwf hfw hlen
    · simp only [deletePhaseGo, hd, Bool.false_eq_true, if_neg,
        not_false_eq_true, List.mem_append, not_or]
      by_cases hk' : k' = k
      · subst hk'
        constructor
        · simp [hoistValue, hfw, Nat.not_le_of_lt hlen]
        · apply deletePhaseGo_proj_none
          intro r' hm
          obtain ⟨r, hr, hre⟩ := List.mem_map.mp hm
          rw [← hre]
          exact lookupA_eraseA_self k' r (hwf r hr)
      · constructor
        · have hk2 : ¬ k = k' := fun hE => hk' hE.symm
          simp only [hoistValue]
          cases firstWith k' rows with
          | none => simp
          | some u =>
            by_cases hl : u.length ≤ dl <;> simp [hl, hk2]
        · apply ih
          · intro r' hm
            obtain ⟨r, hr, hre⟩ := List.mem_map.mp hm
            rw [← hre]
            exact ((keysOf_eraseA_sublist k' r).nodup (hwf r hr))
          · rw [firstWith_of_erase_ne hk']
            exact hfw
          · exact hlen

theorem deletePhaseGo_proj_mem (dl : Nat) (diff : String → Bool)
    (k v : String) :
    ∀ (ks : List String) (rows : List Row),
      k ∈ ks → diff k = false → firstWith k rows = some v → v.length ≤ dl →
      (k, sanitizeCommon v) ∈ (deletePhaseGo dl diff ks rows).2 := by
  intro ks
  induction ks with
  | nil => intro rows h; simp at h
  | cons k' ks ih =>
    intro rows hmem hdiff hfw hlen
    by_cases hk' : k' = k
    · subst hk'
      simp only [deletePhaseGo, hdiff, Bool.false_eq_true, if_neg,
        not_false_eq_true, List.mem_append]
      left
      simp [hoistValue, hfw, hlen]
    · have hks : k ∈ ks := by
        rcases List.mem_cons.mp hmem with h | h
        · exact absurd h.symm hk'
        · exact h
      by_cases hd : diff k'
      · simp only [deletePhaseGo, hd, if_pos]
        exact ih rows hks hdiff hfw hlen
      · simp only [deletePhaseGo, hd, Bool.false_eq_true, if_neg,
          not_false_eq_true, List.mem_append]
        right
        apply ih
        · exact hks
        · exact hdiff
        · rw [firstWith_of_erase_ne hk']
          exact hfw
        · exact hlen

theorem deletePhaseGo_rows_deleted (dl : Nat) (diff : String → Bool)
    (k : String) :
    ∀ (ks : List String) (rows : List Row),
      (∀ r ∈ rows, (keysOf r).Nodup) → k ∈ ks → diff k = false →
      ∀ r ∈ (deletePhaseGo dl diff ks rows).1, lookupA k r = none := by
  intro ks
  induction ks with
  | nil => intro rows _ h; simp at h
  | cons k' ks ih =>
    intro rows hwf hmem hdiff
    by_cases hk' : k' = k
    · subst hk'
      simp only [deletePhaseGo, hdiff, Bool.false_eq_true, if_neg,
        not_false_eq_true]
      apply deletePhaseGo_rows_none
      intro r' hm
      obtain ⟨r, hr, hre⟩ := List.mem_map.mp hm
      rw [← hre]
      exact lookupA_eraseA_self k' r (hwf r hr)
    · have hks : k ∈ ks := by
        rcases List.mem_cons.mp hmem with h | h
        · exact absurd h.symm hk'
        · exact h
      by_cases hd : diff k'
      · simp only [deletePhaseGo, hd, if_pos]
        exact ih rows hwf hks hdiff
      · simp only [deletePhaseGo, hd, Bool.false_eq_true, if_neg,
          not_false_eq_true]
        apply ih
        · intro r' hm
          obtain ⟨r, hr, hre⟩ := List.mem_map.mp hm
          rw [← hre]
          exact ((keysOf_eraseA_sublist k' r).nodup (hwf r hr))
        · exact hks
        · exact hdiff

theorem lookupA_truncRow (tl : Nat) (k : String) (r : Row) :
    lookupA k (r.map fun kv => (kv.1, truncVal tl kv.2))
      = (lookupA k r).map (truncVal tl) := by
  induction r with
  | nil => rfl
  | cons kv t ih =>
    obtain ⟨a, b⟩ := kv
    by_cases ha : a = k <;> simp [lookupA, ha, ih]

/-! ### Claim C5: hoisting of constant attributes -/

/-- Counterexample to C5: `organism = "Homo sapiens"` is constant across
both samples and far shorter than `del_limit = 250`, yet with the default
`max_len = 50` the detection loop flags every key whose first value is
shorter than `max_len` as "different", so the attribute is neither hoisted
to the project list nor removed from the sample rows. -/
theorem c5_short_constant_counterexample :
    ¬ ((("organism", sanitizeCommon "Homo sapiens") ∈
        (separateCommonMeta [[("organism", "Homo sapiens")],
          [("organism", "Homo sapiens")]] 50 250 500).2) ∨
       (∀ r ∈ (separateCommonMeta [[("organism", "Homo sapiens")],
          [("organism", "Homo sapiens")]] 50 250 500).1,
         lookupA "organism" r = none)) := by decide

/-- C5 (amended): a constant attribute is hoisted to the project list and
removed from every sample only when its value's length is at least
`max_len` (precisely: not below both thresholds); such a constant is
hoisted (sanitized) when its length is at most `del_limit`, and removed
but not recorded when its length exceeds `del_limit`.  Constants shorter
than `max_len` are left in the rows (see the counterexample). -/
theorem c5_constant_hoist_amended (rows : List Row) (mx dl tl : Nat)
    (k v : String) (r0 : Row) (rest : List Row)
    (hc : rows = r0 :: rest)
    (hwf : ∀ r ∈ rows, (keysOf r).Nodup)
    (h0 : lookupA k r0 = some v)
    (hall : ∀ r ∈ rest, lookupA k r = some v)
    (hlong : ¬ (v.length < mx ∧ v.length < dl)) :
    (v.length ≤ dl →
      (k, sanitizeCommon v) ∈ (separateCommonMeta rows mx dl tl).2 ∧
      ∀ r ∈ (separateCommonMeta rows mx dl tl).1, lookupA k r = none) ∧
    (dl < v.length →
      (∀ w, (k, w) ∉ (separateCommonMeta rows mx dl tl).2) ∧
      ∀ r ∈ (separateCommonMeta rows mx dl tl).1, lookupA k r = none) := by
  have hdiff : isDiffKey mx dl rows k = false := by
    rw [hc]
    exact isDiffKey_const_false mx dl k v r0 rest h0 hall hlong
  have hfw : firstWith k rows = some v := by
    rw [hc]
    simp [firstWith, h0]
  have hmem : k ∈ getListOfKeys rows :=
    mem_getListOfKeys rows k r0 (by rw [hc]; exact List.mem_cons_self _ _)
      (lookupA_some_mem_keys h0)
  have hdel : ∀ r ∈ (separateCommonMeta rows mx dl tl).1, lookupA k r = none := by
    intro r hr
    simp only [separateCommonMeta, truncPhase, List.mem_map] at hr
    obtain ⟨r₁, hr₁, hre⟩ := hr
    rw [← hre, lookupA_truncRow]
    rw [deletePhaseGo_rows_deleted dl _ k (getListOfKeys rows) rows hwf hmem
      hdiff r₁ hr₁]
    rfl
  refine ⟨fun hle => ⟨?_, hdel⟩, fun hgt => ⟨fun w => ?_, hdel⟩⟩
  · exact deletePhaseGo_proj_mem dl _ k v (getListOfKeys rows) rows hmem hdiff
      hfw hle
  · exact deletePhaseGo_proj_long dl _ k w v (getListOfKeys rows) rows hwf hfw
      hgt

/-- Witness for C5 (amended): with `max_len = 2` the constant value
`"abcd"` (length 4) is hoisted and removed. -/
theorem c5_constant_hoist_amended_witness :
    ("abcd".length ≤ 250 →
      ("k", sanitizeCommon "abcd") ∈
        (separateCommonMeta [[("k", "abcd")], [("k", "abcd")]] 2 250 500).2 ∧
      ∀ r ∈ (separateCommonMeta [[("k", "abcd")], [("k", "abcd")]] 2 250 500).1,
        lookupA "k" r = none) ∧
    (250 < "abcd".length →
      (∀ w, ("k", w) ∉
        (separateCommonMeta [[("k", "abcd")], [("k", "abcd")]] 2 250 500).2) ∧
      ∀ r ∈ (separateCommonMeta [[("k", "abcd")], [("k", "abcd")]] 2 250 500).1,
        lookupA "k" r = none) :=
  c5_constant_hoist_amended [[("k", "abcd")], [("k", "abcd")]] 2 250 500
    "k" "abcd" [("k", "abcd")] [[("k", "abcd")]] rfl (by decide) (by decide)
    (by decide) (by decide)

/-! ### Claim C8: truncation of non-constant values -/

/-- Counterexample to C8: with `truncateLen = 2` the non-constant value
`"ab"` has length exactly 2 — the claim says it is kept unchanged
("does not exceed"), but the code keeps a value only when its length is
STRICTLY below the limit, so `"ab"` becomes `"ab ..."`. -/
theorem c8_truncation_counterexample :
    "ab".length ≤ 2 ∧
    (separateCommonMeta [[("k", "ab")], [("k", "cd")]] 50 250 2).1
      = [[("k", "ab ...")], [("k", "cd ...")]] ∧
    [[("k", "ab ...")], [("k", "cd ...")]] ≠ [[("k", "ab")], [("k", "cd")]] := by
  decide

/-- C8 (amended): in the truncation step a non-constant value is kept
unchanged exactly when its length is STRICTLY below `truncateLen`;
otherwise (length ≥ `truncateLen`, including equality) it is replaced by
its first `truncateLen` characters followed by the ellipsis marker
`" ..."`. -/
theorem c8_truncation_amended (rows : List Row) (mx dl tl : Nat)
    (k v : String) (i : Nat) (r : Row)
    (hdiff : isDiffKey mx dl rows k = true)
    (hr : rows[i]? = some r)
    (hkv : lookupA k r = some v) :
    (((separateCommonMeta rows mx dl tl).1)[i]?).map (lookupA k)
      = some (some (if v.length < tl then v
          else String.mk (v.data.take tl) ++ " ...")) := by
  have hpt := deletePhaseGo_get_lookup dl
    (fun k => isDiffKey mx dl rows k) k hdiff (getListOfKeys rows) rows i
  rw [hr] at hpt
  simp only [Option.map_some'] at hpt
  rw [hkv] at hpt
  cases hdp : (deletePhaseGo dl (fun k => isDiffKey mx dl rows k)
      (getListOfKeys rows) rows).1[i]? with
  | none => rw [hdp] at hpt; exact absurd hpt (by simp)
  | some r₁ =>
    rw [hdp] at hpt
    simp only [Option.map_some', Option.some.injEq] at hpt
    simp only [separateCommonMeta, truncPhase]
    rw [List.getElem?_map, hdp]
    simp only [Option.map_some', Option.some.injEq, lookupA_truncRow, hpt]
    simp [truncVal]

/-- Witness for C8 (amended) at a length-3 value with `truncateLen = 2`. -/
theorem c8_truncation_amended_witness :
    (((separateCommonMeta [[("k", "abc")], [("k", "z")]] 50 250 2).1)[0]?).map
        (lookupA "k")
      = some (some (if "abc".length < 2 then "abc"
          else String.mk ("abc".data.take 2) ++ " ...")) :=
  c8_truncation_amended [[("k", "abc")], [("k", "z")]] 50 250 2 "k" "abc" 0
    [("k", "abc")] (by decide) rfl rfl

/-! ### Parser state-machine lemmas (claims C1 and C4) -/

theorem delimAccs_cons (l : String) (rest : List String) :
    delimAccs (l :: rest) = (delimAccOne l).toList ++ delimAccs rest := by
  unfold delimAccs
  cases h : delimAccOne l with
  | none => simp [List.filterMap_cons, h]
  | some v => simp [List.filterMap_cons, h]

/-- The samples list grows by exactly the (filter-accepted) accession of a
delimiter line, and by nothing on any other line. -/
theorem processLine_samples (flt : List String) (st : ParseState) (l : String)
    (st' : ParseState) (h : processLine flt st l = some st') :
    st'.samples = st.samples ++
      ((delimAccOne l).toList.filter fun a => flt.isEmpty || flt.contains a) := by
  unfold processLine at h
  by_cases hb : (rstrip l).length = 0
  · rw [if_pos hb] at h
    cases h
    simp [delimAccOne, hb]
  · rw [if_neg hb] at h
    by_cases hd : firstChar (rstrip l) = '^'
    · rw [if_pos hd] at h
      cases hp : parseSOFTLine (rstrip l) with
      | none => rw [hp] at h; exact absurd h (by simp)
      | some kv =>
        obtain ⟨k, v⟩ := kv
        rw [hp] at h
        dsimp only at h
        by_cases hk : k = "SAMPLE"
        · rw [if_pos hk] at h
          have hacc : delimAccOne l = some v := by
            simp [delimAccOne, hb, hd, hp, hk]
          by_cases hex : flt.length > 0 ∧ ¬ v ∈ flt
          · rw [if_pos hex] at h
            cases h
            have h1 : flt.isEmpty = false := by
              cases flt with
              | nil => simp at hex
              | cons a t => simp
            have h2 : flt.contains v = false := by
              cases hcv : flt.contains v
              · rfl
              · exact absurd (List.mem_of_elem_eq_true hcv) hex.2
            simp [hacc, h1, h2, hex.2]
          · rw [if_neg hex] at h
            cases h
            rcases Decidable.not_and_iff_or_not.mp hex with h1 | h1
            · have hnil : flt = [] := by
                cases flt with
                | nil => rfl
                | cons a t => simp at h1
              subst hnil
              simp [hacc]
            · have hv : v ∈ flt := Decidable.not_not.mp h1
              have h2 : flt.contains v = true := List.elem_eq_true_of_mem hv
              simp [hacc, h2, hv]
        · rw [if_neg hk] at h
          exact absurd h (by simp)
    · rw [if_neg hd] at h
      have hacc : delimAccOne l = none := by
        simp [delimAccOne, hb, hd]
      cases hcur : st.current with
      | none => rw [hcur] at h; cases h; simp [hacc]
      | some cur =>
        rw [hcur] at h
        cases hp : parseSOFTLine (rstrip l) with
        | none => rw [hp] at h; cases h; simp [hacc]
        | some kv =>
          obtain ⟨k, v⟩ := kv
          rw [hp] at h
          dsimp only at h
          cases hbag : lookupA cur st.meta with
          | none => rw [hbag] at h; exact absurd h (by simp)
          | some bag =>
            rw [hbag] at h
            dsimp only at h
            by_cases hsrx : st.srx
            · rw [if_pos hsrx] at h
              cases h
              simp [hacc]
            · rw [if_neg hsrx] at h
              cases hf : findSRX (rstrip l) with
              | none => rw [hf] at h; cases h; simp [hacc]
              | some sid => rw [hf] at h; cases h; simp [hacc]

/-- Over a whole run of the parsing loop, the samples list accumulates
exactly the delimiter accessions accepted by the selection filter. -/
theorem processLines_samples (flt : List String) :
    ∀ (lines : List String) (st st' : ParseState),
      processLines flt st lines = some st' →
      st'.samples = st.samples ++
        ((delimAccs lines).filter fun a => flt.isEmpty || flt.contains a) := by
  intro lines
  induction lines with
  | nil =>
    intro st st' h
    simp only [processLines, List.foldlM_nil, Option.pure_def,
      Option.some.injEq] at h
    simp [← h, delimAccs]
  | cons l rest ih =>
    intro st st' h
    simp only [processLines, List.foldlM_cons, Option.bind_eq_bind] at h
    cases h1 : processLine flt st l with
    | none => rw [h1] at h; exact absurd h (by simp)
    | some st₁ =>
      rw [h1] at h
      simp only [Option.some_bind] at h
      have h2 := ih st₁ st' h
      rw [processLine_samples flt st l st₁ h1] at h2
      rw [h2, delimAccs_cons, List.filter_append, List.append_assoc]

/-! ### Claim C4: the selection filter of the assembler -/

/-- C4: over a full parse from the initial state, the set of samples for
which records are created (the code's `samples_list`) is exactly the
delimiter accessions when the filter is empty, and their intersection with
the filter's key set otherwise; moreover in the idle state (after a
rejected delimiter) every non-delimiter line is ignored, leaving the state
unchanged. -/
theorem c4_filter_selection (flt : List String) (lines : List String)
    (st' : ParseState)
    (hrun : processLines flt initParseState lines = some st') :
    st'.samples
      = (delimAccs lines).filter (fun a => flt.isEmpty || flt.contains a) ∧
    (∀ (st₂ : ParseState) (l : String), st₂.current = none → isSampleLine l →
      processLine flt st₂ l = some st₂) := by
  constructor
  · have h := processLines_samples flt lines initParseState st' hrun
    simpa [initParseState] using h
  · intro st₂ l hcur hl
    unfold processLine
    rcases hl with hb | hd
    · rw [if_pos hb]
    · by_cases hb : (rstrip l).length = 0
      · rw [if_pos hb]
      · rw [if_neg hb, if_neg hd, hcur]

/-- Witness for C4: a three-delimiter file with a non-empty filter keeps
exactly the two filtered accessions. -/
theorem c4_filter_selection_witness :
    (processLines ["GSM1", "GSM3"]
        initParseState
        ["^SAMPLE = GSM1", "!Sample_title = a", "^SAMPLE = GSM2",
         "!Sample_title = b", "^SAMPLE = GSM3"]).map ParseState.samples
      = some ((delimAccs
          ["^SAMPLE = GSM1", "!Sample_title = a", "^SAMPLE = GSM2",
           "!Sample_title = b", "^SAMPLE = GSM3"]).filter
            (fun a => (["GSM1", "GSM3"] : List String).isEmpty ||
              (["GSM1", "GSM3"] : List String).contains a)) := by
  have h0 : ∀ st, (processLines ["GSM1", "GSM3"] initParseState
      ["^SAMPLE = GSM1", "!Sample_title = a", "^SAMPLE = GSM2",
       "!Sample_title = b", "^SAMPLE = GSM3"]) = some st →
      st.samples = (delimAccs
          ["^SAMPLE = GSM1", "!Sample_title = a", "^SAMPLE = GSM2",
           "!Sample_title = b", "^SAMPLE = GSM3"]).filter
            (fun a => (["GSM1", "GSM3"] : List String).isEmpty ||
              (["GSM1", "GSM3"] : List String).contains a) :=
    fun st h => (c4_filter_selection _ _ st h).1
  cases hrun : processLines ["GSM1", "GSM3"] initParseState
      ["^SAMPLE = GSM1", "!Sample_title = a", "^SAMPLE = GSM2",
       "!Sample_title = b", "^SAMPLE = GSM3"] with
  | none => exact absurd hrun (by decide)
  | some st => simp [h0 st hrun]

/-- Once a sample has been re-keyed (`current_sample_srx` set), any
further line of the same sample only mutates the current record's bag:
the flag stays set, the current id is unchanged, and the mapping's key
list is unchanged — no further re-key can occur. -/
theorem processLine_locked (flt : List String) (st : ParseState) (l : String)
    (st' : ParseState) (hsrx : st.srx = true) (hl : isSampleLine l)
    (h : processLine flt st l = some st') :
    st'.srx = true ∧ st'.current = st.current ∧
    keysOf st'.meta = keysOf st.meta ∧ st'.samples = st.samples := by
  unfold processLine at h
  by_cases hb : (rstrip l).length = 0
  · rw [if_pos hb] at h
    cases h
    exact ⟨hsrx, rfl, rfl, rfl⟩
  · have hd : firstChar (rstrip l) ≠ '^' := by
      rcases hl with h1 | h1
      · exact absurd h1 hb
      · exact h1
    rw [if_neg hb, if_neg hd] at h
    cases hcur : st.current with
    | none =>
      rw [hcur] at h
      cases h
      exact ⟨hsrx, hcur, rfl, rfl⟩
    | some cur =>
      rw [hcur] at h
      cases hp : parseSOFTLine (rstrip l) with
      | none =>
        rw [hp] at h
        cases h
        exact ⟨hsrx, hcur, rfl, rfl⟩
      | some kv =>
        obtain ⟨k, v⟩ := kv
        rw [hp] at h
        dsimp only at h
        cases hbag : lookupA cur st.meta with
        | none => rw [hbag] at h; exact absurd h (by simp)
        | some bag =>
          rw [hbag] at h
          dsimp only at h
          rw [if_pos hsrx] at h
          cases h
          refine ⟨hsrx, rfl, ?_, rfl⟩
          exact keysOf_setA_mem cur _ st.meta (lookupA_some_mem_keys hbag)

/-- The locked-state invariant over a list of same-sample lines. -/
theorem processLines_locked (flt : List String) :
    ∀ (lines : List String) (st st' : ParseState), st.srx = true →
      (∀ l ∈ lines, isSampleLine l) →
      processLines flt st lines = some st' →
      st'.srx = true ∧ st'.current = st.current ∧
      keysOf st'.meta = keysOf st.meta ∧ st'.samples = st.samples := by
  intro lines
  induction lines with
  | nil =>
    intro st st' hsrx _ h
    simp only [processLines, List.foldlM_nil, Option.pure_def,
      Option.some.injEq] at h
    rw [← h]
    exact ⟨hsrx, rfl, rfl, rfl⟩
  | cons l rest ih =>
    intro st st' hsrx hall h
    simp only [processLines, List.foldlM_cons, Option.bind_eq_bind] at h
    cases h1 : processLine flt st l with
    | none => rw [h1] at h; exact absurd h (by simp)
    | some st₁ =>
      rw [h1] at h
      simp only [Option.some_bind] at h
      have hstep := processLine_locked flt st l st₁ hsrx
        (hall l (List.mem_cons_self _ _)) h1
      have hrest := ih st₁ st' hstep.1
        (fun l' hm => hall l' (List.mem_cons_of_mem _ hm)) h
      exact ⟨hrest.1, hrest.2.1.trans hstep.2.1,
        hrest.2.2.1.trans hstep.2.2.1, hrest.2.2.2.trans hstep.2.2.2⟩

/-! ### Claim C1: singular, lossless GSM→SRX re-keying -/

/-- C1: when the first SRX-looking token is found on a successfully
parsed attribute line of a not-yet-re-keyed sample, the whole attribute
bag accumulated so far (including this line's merge) moves from the GSM
key to the SRX key with an added `gsm_id` field holding the original GSM
accession; the GSM key disappears from the mapping; and over all
remaining lines of the sample no further re-key happens: the flag stays
set, the current id stays the SRX accession, the key set is unchanged and
the GSM key stays absent. -/
theorem c1_rekey_once_lossless (flt : List String) (st st₁ st₂ : ParseState)
    (line : String) (rest : List String) (gsm sid k v : String) (bag : Bag)
    (hwf : (keysOf st.meta).Nodup)
    (hcur : st.current = some gsm) (hsrx : st.srx = false)
    (hbag : lookupA gsm st.meta = some bag)
    (hline : isAttrLine line)
    (hpl : parseSOFTLine (rstrip line) = some (k, v))
    (hfind : findSRX (rstrip line) = some sid)
    (hne : sid ≠ gsm)
    (h1 : processLine flt st line = some st₁)
    (hrest : ∀ l ∈ rest, isSampleLine l)
    (h2 : processLines flt st₁ rest = some st₂) :
    lookupA sid st₁.meta
      = some (setA "gsm_id" (.vstr gsm) (mergeAttr bag k v)) ∧
    lookupA gsm st₁.meta = none ∧
    st₁.srx = true ∧ st₁.current = some sid ∧
    st₂.srx = true ∧ st₂.current = some sid ∧
    keysOf st₂.meta = keysOf st₁.meta ∧
    lookupA gsm st₂.meta = none := by
  unfold processLine at h1
  rw [if_neg hline.1, if_neg hline.2, hcur, hpl] at h1
  dsimp only at h1
  rw [hbag] at h1
  dsimp only at h1
  rw [if_neg (by rw [hsrx]; exact Bool.false_ne_true), hfind] at h1
  cases h1
  have hl1 : lookupA sid
      (setA sid (setA "gsm_id" (.vstr gsm) (mergeAttr bag k v))
        (eraseA gsm (setA gsm (mergeAttr bag k v) st.meta)))
      = some (setA "gsm_id" (.vstr gsm) (mergeAttr bag k v)) :=
    lookupA_setA_self _ _ _
  have hkeys : keysOf (setA gsm (mergeAttr bag k v) st.meta)
      = keysOf st.meta :=
    keysOf_setA_mem gsm _ st.meta (lookupA_some_mem_keys hbag)
  have hl2 : lookupA gsm
      (setA sid (setA "gsm_id" (.vstr gsm) (mergeAttr bag k v))
        (eraseA gsm (setA gsm (mergeAttr bag k v) st.meta)))
      = none := by
    rw [lookupA_setA_ne hne]
    exact lookupA_eraseA_self gsm _ (hkeys ▸ hwf)
  have hlock := processLines_locked flt rest _ st₂ rfl hrest h2
  refine ⟨hl1, hl2, rfl, rfl, hlock.1, hlock.2.1, hlock.2.2.1, ?_⟩
  rw [lookupA_eq_none_iff] at hl2 ⊢
  rw [hlock.2.2.1]
  exact hl2

/-- Concrete states for the C1 witness: a fresh sample `GSM999` whose
relation line carries `SRX1234567`. -/
def c1State0 : ParseState :=
  ⟨[("GSM999", initBag)], some "GSM999", false, ["GSM999"]⟩

/-- The state just after the re-keying line. -/
def c1State1 : ParseState :=
  ⟨[("SRX1234567", setA "gsm_id" (.vstr "GSM999")
      (mergeAttr initBag "Sample_relation" "SRA: SRX1234567"))],
   some "SRX1234567", true, ["GSM999"]⟩

/-- The state after one further attribute line of the same sample. -/
def c1State2 : ParseState :=
  ⟨[("SRX1234567", mergeAttr (setA "gsm_id" (.vstr "GSM999")
      (mergeAttr initBag "Sample_relation" "SRA: SRX1234567"))
      "Sample_title" "x")],
   some "SRX1234567", true, ["GSM999"]⟩

/-- Witness for C1 at its concrete re-keying run. -/
theorem c1_rekey_once_lossless_witness :
    lookupA "SRX1234567" c1State1.meta
      = some (setA "gsm_id" (.vstr "GSM999")
          (mergeAttr initBag "Sample_relation" "SRA: SRX1234567")) ∧
    lookupA "GSM999" c1State1.meta = none ∧
    c1State1.srx = true ∧ c1State1.current = some "SRX1234567" ∧
    c1State2.srx = true ∧ c1State2.current = some "SRX1234567" ∧
    keysOf c1State2.meta = keysOf c1State1.meta ∧
    lookupA "GSM999" c1State2.meta = none :=
  c1_rekey_once_lossless [] c1State0 c1State1 c1State2
    "!Sample_relation = SRA: SRX1234567" ["!Sample_title = x"]
    "GSM999" "SRX1234567" "Sample_relation" "SRA: SRX1234567" initBag
    (by decide) (by decide) (by decide) (by decide) (by decide) (by decide)
    (by decide) (by decide) (by decide) (by decide) (by decide)

/-! ### Run-info reconciler lemmas (claims C2, C3, C7) -/

/-- A sample record that `_process_sra_meta` can process without raising:
its name resolves to `name`, and the three `Sample_*` fields that
`_update_columns` reads are present (with a string selection when the
strategy is `Bisulfite-Seq`). -/
def goodBag (enter : List (String × String)) (bag : Bag) (name : String) :
    Prop :=
  resolveSampleName enter bag = some name ∧
  (∃ sel, lookupA "Sample_library_selection" bag = some sel ∧
    (lookupA "Sample_library_strategy" bag = some (.vstr "Bisulfite-Seq") →
      ∃ s, sel = Val.vstr s)) ∧
  (∃ org, lookupA "Sample_organism_ch1" bag = some org) ∧
  (∃ strat, lookupA "Sample_library_strategy" bag = some strat)

/-- `_update_columns` succeeds on a record with the three `Sample_*`
fields (string selection under `Bisulfite-Seq`), sets `sample_name`, and
touches no key outside its six computed fields. -/
theorem updateColumns_spec (bag : Bag) (e n rt : String) (sel org strat : Val)
    (hsel : lookupA "Sample_library_selection" bag = some sel)
    (horg : lookupA "Sample_organism_ch1" bag = some org)
    (hstrat : lookupA "Sample_library_strategy" bag = some strat)
    (hbs : strat = Val.vstr "Bisulfite-Seq" → ∃ s, sel = Val.vstr s) :
    ∃ bag', updateColumns bag e n rt = some bag' ∧
      lookupA "sample_name" bag' = some (.vstr n) ∧
      (∀ x, x ≠ "sample_name" → x ≠ "protocol" → x ≠ "read_type" →
        x ≠ "organism" → x ≠ "data_source" → x ≠ "SRX" →
        lookupA x bag' = lookupA x bag) := by
  have hbase : ∀ x, x ≠ "sample_name" → x ≠ "protocol" → x ≠ "read_type" →
      x ≠ "organism" → x ≠ "data_source" → x ≠ "SRX" →
      lookupA x (setA "SRX" (.vstr e)
        (setA "data_source" (.vstr "SRA")
          (setA "organism" org
            (setA "read_type" (.vstr rt)
              (setA "protocol" sel
                (setA "sample_name" (.vstr n) bag)))))) = lookupA x bag := by
    intro x hx1 hx2 hx3 hx4 hx5 hx6
    rw [lookupA_setA_ne (Ne.symm hx6), lookupA_setA_ne (Ne.symm hx5),
      lookupA_setA_ne (Ne.symm hx4), lookupA_setA_ne (Ne.symm hx3),
      lookupA_setA_ne (Ne.symm hx2), lookupA_setA_ne (Ne.symm hx1)]
  have hname : lookupA "sample_name"
      (setA "SRX" (.vstr e)
        (setA "data_source" (.vstr "SRA")
          (setA "organism" org
            (setA "read_type" (.vstr rt)
              (setA "protocol" sel
                (setA "sample_name" (.vstr n) bag)))))) = some (.vstr n) := by
    rw [lookupA_setA_ne (by decide), lookupA_setA_ne (by decide),
      lookupA_setA_ne (by decide), lookupA_setA_ne (by decide),
      lookupA_setA_ne (by decide), lookupA_setA_self]
  unfold updateColumns
  rw [hsel, horg, hstrat]
  dsimp only
  by_cases hbsq : strat = Val.vstr "Bisulfite-Seq"
  · rw [if_pos hbsq]
    obtain ⟨s, hs⟩ := hbs hbsq
    subst hs
    dsimp only
    by_cases hp1 : toLowerStr s = "reduced representation"
    · rw [if_pos hp1]
      refine ⟨_, rfl, ?_, ?_⟩
      · rw [lookupA_setA_ne (by decide), hname]
      · intro x hx1 hx2 hx3 hx4 hx5 hx6
        rw [lookupA_setA_ne (Ne.symm hx2), hbase x hx1 hx2 hx3 hx4 hx5 hx6]
    · rw [if_neg hp1]
      by_cases hp2 : toLowerStr s = "random"
      · rw [if_pos hp2]
        refine ⟨_, rfl, ?_, ?_⟩
        · rw [lookupA_setA_ne (by decide), hname]
        · intro x hx1 hx2 hx3 hx4 hx5 hx6
          rw [lookupA_setA_ne (Ne.symm hx2), hbase x hx1 hx2 hx3 hx4 hx5 hx6]
      · rw [if_neg hp2]
        exact ⟨_, rfl, hname, hbase⟩
  · rw [if_neg hbsq]
    exact ⟨_, rfl, hname, hbase⟩

/-- `resolveSampleName` only reads `gsm_id` and `Sample_title`. -/
theorem resolveSampleName_congr (enter : List (String × String))
    (bag₁ bag₂ : Bag)
    (h1 : lookupA "gsm_id" bag₂ = lookupA "gsm_id" bag₁)
    (h2 : lookupA "Sample_title" bag₂ = lookupA "Sample_title" bag₁) :
    resolveSampleName enter bag₂ = resolveSampleName enter bag₁ := by
  unfold resolveSampleName
  rw [h1, h2]

/-- `srrSet` only reads `SRR`. -/
theorem srrSet_congr (bag₁ bag₂ : Bag)
    (h : lookupA "SRR" bag₂ = lookupA "SRR" bag₁) :
    srrSet bag₂ = srrSet bag₁ := by
  unfold srrSet
  rw [h]

/-- A successful `_update_columns` on a good record keeps it good,
preserves `SRR`, and pins `sample_name` to the resolved name. -/
theorem goodBag_updateColumns (enter : List (String × String)) (bag : Bag)
    (name e rt : String) (bag' : Bag) (hg : goodBag enter bag name)
    (h : updateColumns bag e name rt = some bag') :
    goodBag enter bag' name ∧
    lookupA "SRR" bag' = lookupA "SRR" bag ∧
    lookupA "sample_name" bag' = some (.vstr name) := by
  obtain ⟨hres, ⟨sel, hsel, hbs⟩, ⟨org, horg⟩, ⟨strat, hstrat⟩⟩ := hg
  obtain ⟨bag₂, hbag₂, hname, hpres⟩ :=
    updateColumns_spec bag e name rt sel org strat hsel horg hstrat
      (fun hq => hbs (by rw [hstrat, hq]))
  rw [h] at hbag₂
  cases hbag₂
  have hgsm := hpres "gsm_id" (by decide) (by decide) (by decide) (by decide)
    (by decide) (by decide)
  have htitle := hpres "Sample_title" (by decide) (by decide) (by decide)
    (by decide) (by decide) (by decide)
  have hsel2 := hpres "Sample_library_selection" (by decide) (by decide)
    (by decide) (by decide) (by decide) (by decide)
  have horg2 := hpres "Sample_organism_ch1" (by decide) (by decide) (by decide)
    (by decide) (by decide) (by decide)
  have hstrat2 := hpres "Sample_library_strategy" (by decide) (by decide)
    (by decide) (by decide) (by decide) (by decide)
  have hsrr := hpres "SRR" (by decide) (by decide) (by decide) (by decide)
    (by decide) (by decide)
  refine ⟨⟨?_, ⟨sel, ?_, ?_⟩, ⟨org, ?_⟩, ⟨strat, ?_⟩⟩, ?_, hname⟩
  · rw [resolveSampleName_congr enter bag _ hgsm htitle]
    exact hres
  · rw [hsel2]
    exact hsel
  · intro hq
    rw [hstrat2] at hq
    exact hbs hq
  · rw [horg2]
    exact horg
  · rw [hstrat2]
    exact hstrat
  · rw [hsrr]

/-- Exhaustive characterization of one successful non-split
`_process_sra_meta` iteration: either the row's experiment is unknown and
the state is unchanged, or the record is updated and the `SRR`/linkage
handling takes exactly one of the first-run, seed-two-rows, or append
branches. -/
theorem processSraRow_nonsplit_shape (enter : List (String × String))
    (st st' : SraState) (row : SraRow)
    (h : processSraRow false enter st row = some st') :
    (lookupA row.Experiment st.meta = none ∧ st' = st) ∨
    (∃ bag name bag', lookupA row.Experiment st.meta = some bag ∧
      resolveSampleName enter bag = some name ∧
      updateColumns bag row.Experiment name row.LibraryLayout = some bag' ∧
      ((srrSet bag' = false ∧
        st'.meta = setA row.Experiment (setA "SRR" (.vstr row.Run) bag')
          (setA row.Experiment bag' st.meta) ∧
        st'.tab = st.tab) ∨
       (srrSet bag' = true ∧
        st'.meta = setA row.Experiment (setA "SRR" (.vstr "multi") bag')
          (setA row.Experiment bag' st.meta) ∧
        ((∃ srrOld, lookupA "SRR" bag' = some (.vstr srrOld) ∧
           lookupA row.Experiment st.tab = none ∧
           st'.tab = st.tab ++ [(row.Experiment,
             [[name, row.Experiment, srrOld],
              [name, row.Experiment, row.Run]])]) ∨
         (∃ rowsT, lookupA row.Experiment st.tab = some rowsT ∧
           st'.tab = setA row.Experiment
             (rowsT ++ [[name, row.Experiment, row.Run]]) st.tab))))) := by
  unfold processSraRow at h
  dsimp only at h
  cases hbag : lookupA row.Experiment st.meta with
  | none =>
    rw [hbag] at h
    cases h
    exact Or.inl ⟨rfl, rfl⟩
  | some bag =>
    rw [hbag] at h
    dsimp only at h
    cases hres : resolveSampleName enter bag with
    | none => rw [hres] at h; exact absurd h (by simp)
    | some name =>
      rw [hres] at h
      dsimp only at h
      cases hupd : updateColumns bag row.Experiment name row.LibraryLayout with
      | none => rw [hupd] at h; exact absurd h (by simp)
      | some bag' =>
        rw [hupd] at h
        dsimp only at h
        refine Or.inr ⟨bag, name, bag', rfl, hres, hupd, ?_⟩
        by_cases hsrr : srrSet bag' = true
        · rw [if_pos hsrr] at h
          refine Or.inr ?_
          cases hsval : lookupA "SRR" bag' with
          | none =>
            rw [hsval] at h
            dsimp only at h
            cases htv : lookupA row.Experiment st.tab with
            | none => rw [htv] at h; exact absurd h (by simp)
            | some rowsT =>
              rw [htv] at h
              dsimp only at h
              rw [if_neg (by exact Bool.false_ne_true)] at h
              cases h
              exact ⟨hsrr, rfl, Or.inr ⟨rowsT, rfl, rfl⟩⟩
          | some w =>
            cases w with
            | vstr srrOld =>
              rw [hsval] at h
              dsimp only at h
              by_cases htab : lookupA row.Experiment st.tab = none
              · rw [if_pos htab] at h
                dsimp only at h
                rw [if_neg (by exact Bool.false_ne_true)] at h
                cases h
                exact ⟨hsrr, rfl, Or.inl ⟨srrOld, rfl, htab, rfl⟩⟩
              · rw [if_neg htab] at h
                cases htv : lookupA row.Experiment st.tab with
                | none => exact absurd htv htab
                | some rowsT =>
                  rw [htv] at h
                  dsimp only at h
                  rw [if_neg (by exact Bool.false_ne_true)] at h
                  cases h
                  exact ⟨hsrr, rfl, Or.inr ⟨rowsT, rfl, rfl⟩⟩
            | vnone =>
              rw [hsval] at h
              dsimp only at h
              cases htv : lookupA row.Experiment st.tab with
              | none => rw [htv] at h; exact absurd h (by simp)
              | some rowsT =>
                rw [htv] at h
                dsimp only at h
                rw [if_neg (by exact Bool.false_ne_true)] at h
                cases h
                exact ⟨hsrr, rfl, Or.inr ⟨rowsT, rfl, rfl⟩⟩
            | vlist l =>
              rw [hsval] at h
              dsimp only at h
              cases htv : lookupA row.Experiment st.tab with
              | none => rw [htv] at h; exact absurd h (by simp)
              | some rowsT =>
                rw [htv] at h
                dsimp only at h
                rw [if_neg (by exact Bool.false_ne_true)] at h
                cases h
                exact ⟨hsrr, rfl, Or.inr ⟨rowsT, rfl, rfl⟩⟩
        · have hsf : srrSet bag' = false := by
            cases hE : srrSet bag'
            · rfl
            · exact absurd hE hsrr
          rw [if_neg hsrr] at h
          cases h
          exact Or.inl ⟨hsf, rfl, rfl⟩

/-- `goodBag` only depends on the five lookups it mentions. -/
theorem goodBag_congr (enter : List (String × String)) (name : String)
    (bag₁ bag₂ : Bag)
    (h1 : lookupA "gsm_id" bag₂ = lookupA "gsm_id" bag₁)
    (h2 : lookupA "Sample_title" bag₂ = lookupA "Sample_title" bag₁)
    (h3 : lookupA "Sample_library_selection" bag₂
      = lookupA "Sample_library_selection" bag₁)
    (h4 : lookupA "Sample_organism_ch1" bag₂
      = lookupA "Sample_organism_ch1" bag₁)
    (h5 : lookupA "Sample_library_strategy" bag₂
      = lookupA "Sample_library_strategy" bag₁)
    (hg : goodBag enter bag₁ name) : goodBag enter bag₂ name := by
  obtain ⟨hres, ⟨sel, hsel, hbs⟩, ⟨org, horg⟩, ⟨strat, hstrat⟩⟩ := hg
  refine ⟨?_, ⟨sel, ?_, ?_⟩, ⟨org, ?_⟩, ⟨strat, ?_⟩⟩
  · rw [resolveSampleName_congr enter bag₁ bag₂ h1 h2]
    exact hres
  · rw [h3]
    exact hsel
  · intro hq
    rw [h5] at hq
    exact hbs hq
  · rw [h4]
    exact horg
  · rw [h5]
    exact hstrat

/-- `goodBag` survives a `setA "SRR" …` update. -/
theorem goodBag_setA_srr (enter : List (String × String)) (name : String)
    (bag : Bag) (v : Val) (hg : goodBag enter bag name) :
    goodBag enter (setA "SRR" v bag) name :=
  goodBag_congr enter name bag _ (lookupA_setA_ne (by decide) v bag)
    (lookupA_setA_ne (by decide) v bag) (lookupA_setA_ne (by decide) v bag)
    (lookupA_setA_ne (by decide) v bag) (lookupA_setA_ne (by decide) v bag) hg

/-- The per-experiment invariant threaded through the non-split fold:
after the runs `rs` of experiment `exp` have been processed, the record
is still present and good, and its `SRR` field plus the linkage-table
entry reflect exactly how many runs were seen (none / one / several). -/
def expInv (enter : List (String × String)) (exp name : String)
    (rs : List String) (st : SraState) : Prop :=
  ∃ bag, lookupA exp st.meta = some bag ∧ goodBag enter bag name ∧
    (match rs with
     | [] => srrSet bag = false ∧ lookupA exp st.tab = none
     | [r] => lookupA "SRR" bag = some (.vstr r) ∧ lookupA exp st.tab = none
     | _ => lookupA "SRR" bag = some (.vstr "multi") ∧
         lookupA exp st.tab = some (rs.map fun r => [name, exp, r]))

theorem expInv_step (enter : List (String × String)) (exp name : String)
    (rs : List String) (st st' : SraState) (row : SraRow)
    (hinv : expInv enter exp name rs st)
    (h : processSraRow false enter st row = some st') :
    expInv enter exp name
      (rs ++ if row.Experiment = exp then [row.Run] else []) st' := by
  obtain ⟨bag, hbag, hgood, hrs⟩ := hinv
  rcases processSraRow_nonsplit_shape enter st st' row h with
    ⟨hskip, hst⟩ | ⟨bag₂, name₂, bag', hbag₂, hres₂, hupd₂, hcase⟩
  · by_cases hexp : row.Experiment = exp
    · rw [hexp, hbag] at hskip
      exact absurd hskip (by simp)
    · rw [if_neg hexp, List.append_nil, hst]
      exact ⟨bag, hbag, hgood, hrs⟩
  · by_cases hexp : row.Experiment = exp
    · rw [hexp] at hbag₂ hupd₂ hcase
      rw [hbag] at hbag₂
      have hbeq : bag = bag₂ := by injection hbag₂
      subst hbeq
      have hname₂ : name = name₂ := by
        have hx := hgood.1
        rw [hres₂] at hx
        injection hx with h2
        exact h2.symm
      subst hname₂
      obtain ⟨hgood', hsrr', hsn'⟩ :=
        goodBag_updateColumns enter bag name exp row.LibraryLayout bag'
          hgood hupd₂
      rw [if_pos hexp]
      rcases hcase with ⟨hunset', hmeta, htab⟩ | ⟨hset', hmeta, hcase2⟩
      · -- first run for this experiment
        cases rs with
        | nil =>
          refine ⟨setA "SRR" (.vstr row.Run) bag', ?_, ?_, ?_⟩
          · rw [hmeta]
            exact lookupA_setA_self _ _ _
          · exact goodBag_setA_srr enter name bag' _ hgood'
          · simp only [List.nil_append]
            refine ⟨lookupA_setA_self _ _ _, ?_⟩
            rw [htab]
            exact hrs.2
        | cons r t =>
          exfalso
          have hsb : srrSet bag = true := by
            unfold srrSet
            cases t with
            | nil => rw [hrs.1]
            | cons r2 t2 => rw [hrs.1]
          rw [srrSet_congr bag bag' hsrr', hsb] at hunset'
          exact Bool.noConfusion hunset'
      · -- a further run for this experiment
        cases rs with
        | nil =>
          exfalso
          rw [srrSet_congr bag bag' hsrr', hrs.1] at hset'
          exact Bool.noConfusion hset'
        | cons r t =>
          cases t with
          | nil =>
            rcases hcase2 with ⟨srrOld, hsval, htabn, htab⟩ |
              ⟨rowsT, htabs, htab⟩
            · have hsrrOld : srrOld = r := by
                rw [hsrr', hrs.1] at hsval
                injection hsval with h2
                injection h2 with h3
                exact h3.symm
              subst hsrrOld
              refine ⟨setA "SRR" (.vstr "multi") bag', ?_, ?_, ?_⟩
              · rw [hmeta]
                exact lookupA_setA_self _ _ _
              · exact goodBag_setA_srr enter name bag' _ hgood'
              · refine ⟨lookupA_setA_self _ _ _, ?_⟩
                rw [htab, lookupA_append, hrs.2]
                simp [lookupA, Option.or]
            · rw [hrs.2] at htabs
              exact absurd htabs (by simp)
          | cons r2 t2 =>
            rcases hcase2 with ⟨srrOld, hsval, htabn, htab⟩ |
              ⟨rowsT, htabs, htab⟩
            · rw [hrs.2] at htabn
              exact absurd htabn (by simp)
            · have hrows : rowsT
                  = (r :: r2 :: t2).map fun x => [name, exp, x] := by
                rw [hrs.2] at htabs
                injection htabs with h2
                exact h2.symm
              subst hrows
              refine ⟨setA "SRR" (.vstr "multi") bag', ?_, ?_, ?_⟩
              · rw [hmeta]
                exact lookupA_setA_self _ _ _
              · exact goodBag_setA_srr enter name bag' _ hgood'
              · refine ⟨lookupA_setA_self _ _ _, ?_⟩
                rw [htab, lookupA_setA_self]
                simp
    · -- a row of another experiment leaves `exp` untouched
      rw [if_neg hexp, List.append_nil]
      have hmne : row.Experiment ≠ exp := hexp
      have hml : lookupA exp st'.meta = lookupA exp st.meta := by
        rcases hcase with ⟨_, hmeta, _⟩ | ⟨_, hmeta, _⟩ <;>
          rw [hmeta, lookupA_setA_ne hmne, lookupA_setA_ne hmne]
      have htl : lookupA exp st'.tab = lookupA exp st.tab := by
        rcases hcase with ⟨_, _, htab⟩ | ⟨_, _, hcase2⟩
        · rw [htab]
        · rcases hcase2 with ⟨srrOld, _, _, htab⟩ | ⟨rowsT, _, htab⟩
          · rw [htab, lookupA_append]
            simp only [lookupA, if_neg hmne]
            cases lookupA exp st.tab <;> rfl
          · rw [htab, lookupA_setA_ne hmne]
      refine ⟨bag, ?_, hgood, ?_⟩
      · rw [hml]
        exact hbag
      · cases rs with
        | nil => exact ⟨hrs.1, htl ▸ hrs.2⟩
        | cons r t =>
          cases t with
          | nil => exact ⟨hrs.1, htl ▸ hrs.2⟩
          | cons r2 t2 => exact ⟨hrs.1, htl ▸ hrs.2⟩

theorem runsOf_cons (exp : String) (row : SraRow) (rest : List SraRow) :
    runsOf exp (row :: rest)
      = (if row.Experiment = exp then [row.Run] else []) ++ runsOf exp rest := by
  unfold runsOf
  by_cases hexp : row.Experiment = exp
  · rw [List.filter_cons_of_pos (by simpa using hexp)]
    simp [hexp]
  · rw [List.filter_cons_of_neg (by simpa using hexp)]
    simp [hexp]

theorem expInv_fold (enter : List (String × String)) (exp name : String) :
    ∀ (rows : List SraRow) (rs : List String) (st st' : SraState),
      expInv enter exp name rs st →
      rows.foldlM (processSraRow false enter) st = some st' →
      expInv enter exp name (rs ++ runsOf exp rows) st' := by
  intro rows
  induction rows with
  | nil =>
    intro rs st st' hinv h
    simp only [List.foldlM_nil, Option.pure_def, Option.some.injEq] at h
    rw [← h]
    simpa [runsOf] using hinv
  | cons row rest ih =>
    intro rs st st' hinv h
    simp only [List.foldlM_cons, Option.bind_eq_bind] at h
    cases h1 : processSraRow false enter st row with
    | none => rw [h1] at h; exact absurd h (by simp)
    | some st₁ =>
      rw [h1] at h
      simp only [Option.some_bind] at h
      have hstep := expInv_step enter exp name rs st st₁ row hinv h1
      have := ih _ st₁ st' hstep h
      rw [runsOf_cons, ← List.append_assoc]
      exact this

/-- Shared characterization: in non-split mode a good record with at
least two runs ends with `SRR = "multi"` and a full linkage entry. -/
theorem nonsplit_multirun_entry (enter : List (String × String))
    (meta₀ : List (String × Bag)) (rows : List SraRow)
    (metaF : List (String × Bag))
    (tabF : List (String × List (List String)))
    (exp name : String) (bag₀ : Bag)
    (hbag : lookupA exp meta₀ = some bag₀)
    (hgood : goodBag enter bag₀ name)
    (hunset : srrSet bag₀ = false)
    (hN : 2 ≤ (runsOf exp rows).length)
    (hrun : processSraMeta false enter meta₀ rows = some (metaF, tabF)) :
    ∃ bagF, lookupA exp metaF = some bagF ∧
      lookupA "SRR" bagF = some (.vstr "multi") ∧
      lookupA exp tabF = some ((runsOf exp rows).map fun r => [name, exp, r]) := by
  unfold processSraMeta at hrun
  cases hfold : rows.foldlM (processSraRow false enter) ⟨meta₀, []⟩ with
  | none => rw [hfold] at hrun; exact absurd hrun (by simp)
  | some stF =>
    rw [hfold] at hrun
    simp only [Option.map_some', Option.some.injEq, Prod.mk.injEq] at hrun
    have hinv0 : expInv enter exp name [] ⟨meta₀, []⟩ :=
      ⟨bag₀, hbag, hgood, hunset, rfl⟩
    have hinvF := expInv_fold enter exp name rows [] ⟨meta₀, []⟩ stF hinv0 hfold
    simp only [List.nil_append] at hinvF
    obtain ⟨bagF, hbagF, _, hmatch⟩ := hinvF
    cases hruns : runsOf exp rows with
    | nil => simp [hruns] at hN
    | cons r t =>
      cases t with
      | nil => simp [hruns] at hN
      | cons r2 t2 =>
        rw [hruns] at hmatch
        have hmatch2 : lookupA "SRR" bagF = some (.vstr "multi") ∧
            lookupA exp stF.tab
              = some (List.map (fun r => [name, exp, r]) (r :: r2 :: t2)) :=
          hmatch
        refine ⟨bagF, ?_, hmatch2.1, ?_⟩
        · rw [← hrun.1]
          exact hbagF
        · rw [← hrun.2]
          exact hmatch2.2

/-! ### Claim C2: non-split multi-run handling -/

/-- C2: in non-split mode, an experiment whose run-info rows carry at
least two runs ends with `SRR = "multi"` on its sample record, and its
linkage-table entry is exactly one `[sample_name, SRX, SRR]` triple per
run, in input order, all carrying the same resolved sample name. -/
theorem c2_nonsplit_multi (enter : List (String × String))
    (meta₀ : List (String × Bag)) (rows : List SraRow)
    (metaF : List (String × Bag))
    (tabF : List (String × List (List String)))
    (exp name : String) (bag₀ : Bag)
    (hbag : lookupA exp meta₀ = some bag₀)
    (hgood : goodBag enter bag₀ name)
    (hunset : srrSet bag₀ = false)
    (hN : 2 ≤ (runsOf exp rows).length)
    (hrun : processSraMeta false enter meta₀ rows = some (metaF, tabF)) :
    ∃ bagF, lookupA exp metaF = some bagF ∧
      lookupA "SRR" bagF = some (.vstr "multi") ∧
      lookupA exp tabF
        = some ((runsOf exp rows).map fun r => [name, exp, r]) :=
  nonsplit_multirun_entry enter meta₀ rows metaF tabF exp name bag₀ hbag
    hgood hunset hN hrun

/-- A concrete well-formed sample record used by the reconciler
witnesses (spec Scenario A's `GSM2`/`SRX200`). -/
def c2Bag : Bag :=
  [("sample_name", .vstr ""), ("protocol", .vstr ""), ("organism", .vstr ""),
   ("read_type", .vstr ""), ("data_source", .vnone), ("SRR", .vnone),
   ("SRX", .vnone), ("Sample_title", .vstr "Liver, rep 1"),
   ("Sample_library_selection", .vstr "cDNA"),
   ("Sample_organism_ch1", .vstr "Homo sapiens"),
   ("Sample_library_strategy", .vstr "RNA-Seq"),
   ("gsm_id", .vstr "GSM1")]

/-- The record after the two-run non-split reconciliation. -/
def c2BagF : Bag :=
  [("sample_name", .vstr "Sample2"), ("protocol", .vstr "cDNA"),
   ("organism", .vstr "Homo sapiens"), ("read_type", .vstr "PAIRED"),
   ("data_source", .vstr "SRA"), ("SRR", .vstr "multi"),
   ("SRX", .vstr "SRX200"), ("Sample_title", .vstr "Liver, rep 1"),
   ("Sample_library_selection", .vstr "cDNA"),
   ("Sample_organism_ch1", .vstr "Homo sapiens"),
   ("Sample_library_strategy", .vstr "RNA-Seq"),
   ("gsm_id", .vstr "GSM1")]

/-- Witness for C2 at spec Scenario A: runs `SRR20`, `SRR21` of `SRX200`
in non-split mode. -/
theorem c2_nonsplit_multi_witness :
    ∃ bagF, lookupA "SRX200" [("SRX200", c2BagF)] = some bagF ∧
      lookupA "SRR" bagF = some (.vstr "multi") ∧
      lookupA "SRX200"
          [("SRX200", [["Sample2", "SRX200", "SRR20"],
                       ["Sample2", "SRX200", "SRR21"]])]
        = some ((runsOf "SRX200"
            [⟨"SRX200", "SRR20", "PAIRED"⟩, ⟨"SRX200", "SRR21", "PAIRED"⟩]).map
              fun r => ["Sample2", "SRX200", r]) :=
  c2_nonsplit_multi [("GSM1", "Sample2")] [("SRX200", c2Bag)]
    [⟨"SRX200", "SRR20", "PAIRED"⟩, ⟨"SRX200", "SRR21", "PAIRED"⟩]
    [("SRX200", c2BagF)]
    [("SRX200", [["Sample2", "SRX200", "SRR20"],
                 ["Sample2", "SRX200", "SRR21"]])]
    "SRX200" "Sample2" c2Bag (by decide)
    ⟨by decide, ⟨.vstr "cDNA", by decide, fun h => absurd h (by decide)⟩,
      ⟨.vstr "Homo sapiens", by decide⟩, ⟨.vstr "RNA-Seq", by decide⟩⟩
    (by decide) (by decide) (by rfl)

/-- Any successful `_update_columns` leaves every key outside its six
computed fields untouched (in particular `SRR`). -/
theorem updateColumns_preserves_of_some (bag : Bag) (e n rt : String)
    (bag' : Bag) (h : updateColumns bag e n rt = some bag') :
    ∀ x, x ≠ "sample_name" → x ≠ "protocol" → x ≠ "read_type" →
      x ≠ "organism" → x ≠ "data_source" → x ≠ "SRX" →
      lookupA x bag' = lookupA x bag := by
  intro x hx1 hx2 hx3 hx4 hx5 hx6
  have hbase : ∀ sel org,
      lookupA x (setA "SRX" (Val.vstr e)
        (setA "data_source" (Val.vstr "SRA")
          (setA "organism" org
            (setA "read_type" (Val.vstr rt)
              (setA "protocol" sel
                (setA "sample_name" (Val.vstr n) bag)))))) = lookupA x bag := by
    intro sel org
    rw [lookupA_setA_ne (Ne.symm hx6), lookupA_setA_ne (Ne.symm hx5),
      lookupA_setA_ne (Ne.symm hx4), lookupA_setA_ne (Ne.symm hx3),
      lookupA_setA_ne (Ne.symm hx2), lookupA_setA_ne (Ne.symm hx1)]
  unfold updateColumns at h
  cases hsel : lookupA "Sample_library_selection" bag with
  | none => rw [hsel] at h; exact absurd h (by simp)
  | some sel =>
    rw [hsel] at h
    dsimp only at h
    cases horg : lookupA "Sample_organism_ch1" bag with
    | none => rw [horg] at h; exact absurd h (by simp)
    | some org =>
      rw [horg] at h
      dsimp only at h
      cases hstrat : lookupA "Sample_library_strategy" bag with
      | none => rw [hstrat] at h; exact absurd h (by simp)
      | some strat =>
        rw [hstrat] at h
        dsimp only at h
        by_cases hbsq : strat = Val.vstr "Bisulfite-Seq"
        · rw [if_pos hbsq] at h
          cases sel with
          | vstr s =>
            dsimp only at h
            by_cases hp1 : toLowerStr s = "reduced representation"
            · rw [if_pos hp1] at h
              injection h with h2
              rw [← h2, lookupA_setA_ne (Ne.symm hx2), hbase]
            · rw [if_neg hp1] at h
              by_cases hp2 : toLowerStr s = "random"
              · rw [if_pos hp2] at h
                injection h with h2
                rw [← h2, lookupA_setA_ne (Ne.symm hx2), hbase]
              · rw [if_neg hp2] at h
                injection h with h2
                rw [← h2, hbase]
          | vnone => exact absurd h (by simp)
          | vlist l => exact absurd h (by simp)
        · rw [if_neg hbsq] at h
          injection h with h2
          rw [← h2, hbase]

/-- The counting invariant behind the "no multi-run experiment, no
linkage table" property: `c e` bounds from below the number of processed
rows of experiment `e`; a linkage entry needs at least two of them, a set
`SRR` at least one. -/
def tabCount (c : String → Nat) (st : SraState) : Prop :=
  ∀ e, (lookupA e st.tab ≠ none → 2 ≤ c e) ∧
    (∀ bag, lookupA e st.meta = some bag → srrSet bag = true → 1 ≤ c e)

theorem tabCount_mono (c c' : String → Nat) (st : SraState)
    (h : tabCount c st) (hle : ∀ e, c e ≤ c' e) : tabCount c' st := by
  intro e
  exact ⟨fun ht => le_trans ((h e).1 ht) (hle e),
    fun bag hb hs => le_trans ((h e).2 bag hb hs) (hle e)⟩

theorem tabCount_step (enter : List (String × String)) (c : String → Nat)
    (st st' : SraState) (row : SraRow) (hW : tabCount c st)
    (h : processSraRow false enter st row = some st') :
    tabCount (fun e => if e = row.Experiment then c e + 1 else c e) st' := by
  rcases processSraRow_nonsplit_shape enter st st' row h with
    ⟨hskip, hst⟩ | ⟨bag, name, bag', hbag, hres, hupd, hcase⟩
  · rw [hst]
    apply tabCount_mono c _ st hW
    intro e
    by_cases he : e = row.Experiment <;> simp [he]
  · intro e
    by_cases he : e = row.Experiment
    · have hcc : (fun x => if x = row.Experiment then c x + 1 else c x) e
          = c e + 1 := by
        simp [he]
      constructor
      · intro ht
        rw [hcc]
        rcases hcase with ⟨_, _, htab⟩ | ⟨hset', _, hcase2⟩
        · rw [htab] at ht
          have hbnd := (hW e).1 ht
          omega
        · have hsrrp := updateColumns_preserves_of_some bag row.Experiment
            name row.LibraryLayout bag' hupd "SRR" (by decide) (by decide)
            (by decide) (by decide) (by decide) (by decide)
          have hsb : srrSet bag = true := by
            rw [← srrSet_congr bag bag' hsrrp]
            exact hset'
          have hbag2 : lookupA e st.meta = some bag := by
            rw [he]
            exact hbag
          have hbnd := (hW e).2 bag hbag2 hsb
          omega
      · intro bag₃ hb hs
        rw [hcc]
        omega
    · have hcc : (fun x => if x = row.Experiment then c x + 1 else c x) e
          = c e := by
        simp [he]
      rw [hcc]
      have hmne : row.Experiment ≠ e := fun hq => he hq.symm
      have hml : lookupA e st'.meta = lookupA e st.meta := by
        rcases hcase with ⟨_, hmeta, _⟩ | ⟨_, hmeta, _⟩ <;>
          rw [hmeta, lookupA_setA_ne hmne, lookupA_setA_ne hmne]
      have htl : lookupA e st'.tab = lookupA e st.tab := by
        rcases hcase with ⟨_, _, htab⟩ | ⟨_, _, hcase2⟩
        · rw [htab]
        · rcases hcase2 with ⟨srrOld, _, _, htab⟩ | ⟨rowsT, _, htab⟩
          · rw [htab, lookupA_append]
            simp only [lookupA, if_neg hmne]
            cases lookupA e st.tab <;> rfl
          · rw [htab, lookupA_setA_ne hmne]
      rw [hml, htl]
      exact hW e

theorem tabCount_fold (enter : List (String × String)) :
    ∀ (rows : List SraRow) (c : String → Nat) (st st' : SraState),
      tabCount c st →
      rows.foldlM (processSraRow false enter) st = some st' →
      tabCount (fun e => c e + (runsOf e rows).length) st' := by
  intro rows
  induction rows with
  | nil =>
    intro c st st' hW h
    simp only [List.foldlM_nil, Option.pure_def, Option.some.injEq] at h
    rw [← h]
    apply tabCount_mono c _ st hW
    intro e
    simp [runsOf]
  | cons row rest ih =>
    intro c st st' hW h
    simp only [List.foldlM_cons, Option.bind_eq_bind] at h
    cases h1 : processSraRow false enter st row with
    | none => rw [h1] at h; exact absurd h (by simp)
    | some st₁ =>
      rw [h1] at h
      simp only [Option.some_bind] at h
      have hstep := tabCount_step enter c st st₁ row hW h1
      have hrest := ih _ st₁ st' hstep h
      apply tabCount_mono _ _ st' hrest
      intro e
      rw [runsOf_cons]
      by_cases he : e = row.Experiment
      · subst he
        simp only [if_pos rfl, List.length_append]
        simp [runsOf]
        omega
      · have hq2 : ¬ row.Experiment = e := fun hq => he hq.symm
        simp only [if_neg he, if_neg hq2, List.length_append]
        simp [runsOf, hq2]

theorem eq_nil_of_all_lookupA_none {α : Type} (m : List (String × α))
    (h : ∀ k, lookupA k m = none) : m = [] := by
  cases m with
  | nil => rfl
  | cons hd t =>
    have := h hd.1
    simp [lookupA] at this

/-- If every experiment has at most one run-info row and every initial
record has `SRR` unset, the non-split linkage table ends empty. -/
theorem tab_empty_of_no_multirun (enter : List (String × String))
    (meta₀ : List (String × Bag)) (rows : List SraRow)
    (metaF : List (String × Bag))
    (tabF : List (String × List (List String)))
    (hinit : ∀ e bag, lookupA e meta₀ = some bag → srrSet bag = false)
    (hall : ∀ e, (runsOf e rows).length ≤ 1)
    (hrun : processSraMeta false enter meta₀ rows = some (metaF, tabF)) :
    tabF = [] := by
  unfold processSraMeta at hrun
  cases hfold : rows.foldlM (processSraRow false enter) ⟨meta₀, []⟩ with
  | none => rw [hfold] at hrun; exact absurd hrun (by simp)
  | some stF =>
    rw [hfold] at hrun
    simp only [Option.map_some', Option.some.injEq, Prod.mk.injEq] at hrun
    have hW0 : tabCount (fun _ => 0) ⟨meta₀, []⟩ := by
      intro e
      constructor
      · intro ht
        exact absurd rfl ht
      · intro bag hb hs
        rw [hinit e bag hb] at hs
        exact Bool.noConfusion hs
    have hWF := tabCount_fold enter rows (fun _ => 0) ⟨meta₀, []⟩ stF hW0 hfold
    rw [← hrun.2]
    apply eq_nil_of_all_lookupA_none
    intro k
    by_contra hk
    have h2 : 2 ≤ (runsOf k rows).length := by
      simpa using (hWF k).1 hk
    have h3 := hall k
    omega

/-! ### Claim C7: the subannotation table -/

/-- Counterexample to C7: an experiment with N = 2 runs gets a linkage
entry of 2 rows (one per run, the first run included), not N − 1 = 1. -/
theorem c7_rows_counterexample :
    (processSraMeta false [("GSM1", "Sample2")] [("SRX200", c2Bag)]
        [⟨"SRX200", "SRR20", "PAIRED"⟩, ⟨"SRX200", "SRR21", "PAIRED"⟩]).map
      (fun p => (lookupA "SRX200" p.2).map List.length) = some (some 2) ∧
    (2 : Nat) ≠ 2 - 1 := by
  constructor
  · rfl
  · decide

/-- C7 (amended): the written subannotation table has header
`sample_name,SRX,SRR`; a non-split experiment with N ≥ 2 runs contributes
exactly N rows — one per run INCLUDING the experiment's first run; when
no experiment has a second run the table stays empty; and with an empty
linkage table `_write_raw_annotation_new` does not write a subannotation
file at all. -/
theorem c7_subannotation_amended :
    (∀ tab : List (String × List (List String)),
      (writeSubannotTable tab).head? = some ["sample_name", "SRX", "SRR"]) ∧
    (∀ (enter : List (String × String)) (meta₀ : List (String × Bag))
        (rows : List SraRow) (metaF : List (String × Bag))
        (tabF : List (String × List (List String))) (exp name : String)
        (bag₀ : Bag),
      lookupA exp meta₀ = some bag₀ → goodBag enter bag₀ name →
      srrSet bag₀ = false → 2 ≤ (runsOf exp rows).length →
      processSraMeta false enter meta₀ rows = some (metaF, tabF) →
      ∃ entry, lookupA exp tabF = some entry ∧
        entry.length = (runsOf exp rows).length ∧
        entry = (runsOf exp rows).map fun r => [name, exp, r]) ∧
    (∀ (enter : List (String × String)) (meta₀ : List (String × Bag))
        (rows : List SraRow) (metaF : List (String × Bag))
        (tabF : List (String × List (List String))),
      (∀ e bag, lookupA e meta₀ = some bag → srrSet bag = false) →
      (∀ e, (runsOf e rows).length ≤ 1) →
      processSraMeta false enter meta₀ rows = some (metaF, tabF) →
      tabF = []) ∧
    (∀ (maxLen delLimit truncLimit : Nat) (md : List (String × Row))
        (csv : List String × List (List String))
        (pm : List (String × String)) (sub : Option (List (List String))),
      writeRawAnnotationNew maxLen delLimit truncLimit md [] = .ok csv pm sub →
      sub = none) := by
  refine ⟨fun tab => rfl, ?_, ?_, ?_⟩
  · intro enter meta₀ rows metaF tabF exp name bag₀ hbag hgood hunset hN hrun
    obtain ⟨bagF, _, _, htab⟩ := nonsplit_multirun_entry enter meta₀ rows
      metaF tabF exp name bag₀ hbag hgood hunset hN hrun
    exact ⟨_, htab, by simp, rfl⟩
  · intro enter meta₀ rows metaF tabF hinit hall hrun
    exact tab_empty_of_no_multirun enter meta₀ rows metaF tabF hinit hall hrun
  · intro maxLen delLimit truncLimit md csv pm sub h
    unfold writeRawAnnotationNew at h
    by_cases hlen : md.length = 0
    · rw [if_pos hlen] at h
      exact absurd h (by simp)
    · rw [if_neg hlen] at h
      cases hchk : checkSampleNameStandard md with
      | none => rw [hchk] at h; exact absurd h (by simp)
      | some md₁ =>
        rw [hchk] at h
        dsimp only at h
        cases hsep : separateCommonMetaDict md₁ maxLen delLimit truncLimit with
        | none => rw [hsep] at h; exact absurd h (by simp)
        | some p =>
          obtain ⟨md₂, projMeta⟩ := p
          rw [hsep] at h
          dsimp only at h
          cases hw : writeGsmAnnotTable md₂ with
          | none => rw [hw] at h; exact absurd h (by simp)
          | some csv₂ =>
            rw [hw] at h
            dsimp only at h
            have hnone : (if ([] : List (String × List (List String))).length = 0
                then none else some (writeSubannotTable [])) = none := rfl
            rw [hnone] at h
            injection h with h1 h2 h3
            exact h3.symm

/-- The record after a single-run non-split reconciliation (used by the
C7 witness). -/
def c7BagF : Bag :=
  [("sample_name", .vstr "Sample2"), ("protocol", .vstr "cDNA"),
   ("organism", .vstr "Homo sapiens"), ("read_type", .vstr "L"),
   ("data_source", .vstr "SRA"), ("SRR", .vstr "SRR1"),
   ("SRX", .vstr "SRX200"), ("Sample_title", .vstr "Liver, rep 1"),
   ("Sample_library_selection", .vstr "cDNA"),
   ("Sample_organism_ch1", .vstr "Homo sapiens"),
   ("Sample_library_strategy", .vstr "RNA-Seq"),
   ("gsm_id", .vstr "GSM1")]

/-- Witness for C7 (amended) at concrete inputs for each conjunct. -/
theorem c7_subannotation_amended_witness :
    (writeSubannotTable [("SRX200", [["Sample2", "SRX200", "SRR20"]])]).head?
      = some ["sample_name", "SRX", "SRR"] ∧
    (∃ entry, lookupA "SRX200"
        [("SRX200", [["Sample2", "SRX200", "SRR20"],
                     ["Sample2", "SRX200", "SRR21"]])] = some entry ∧
      entry.length = (runsOf "SRX200"
        [⟨"SRX200", "SRR20", "PAIRED"⟩, ⟨"SRX200", "SRR21", "PAIRED"⟩]).length ∧
      entry = (runsOf "SRX200"
        [⟨"SRX200", "SRR20", "PAIRED"⟩, ⟨"SRX200", "SRR21", "PAIRED"⟩]).map
          fun r => ["Sample2", "SRX200", r]) ∧
    ([] : List (String × List (List String))) = [] ∧
    (none : Option (List (List String))) = none := by
  refine ⟨c7_subannotation_amended.1 _, ?_, ?_, ?_⟩
  · exact c7_subannotation_amended.2.1 [("GSM1", "Sample2")]
      [("SRX200", c2Bag)]
      [⟨"SRX200", "SRR20", "PAIRED"⟩, ⟨"SRX200", "SRR21", "PAIRED"⟩]
      [("SRX200", c2BagF)]
      [("SRX200", [["Sample2", "SRX200", "SRR20"],
                   ["Sample2", "SRX200", "SRR21"]])]
      "SRX200" "Sample2" c2Bag (by decide)
      ⟨by decide, ⟨.vstr "cDNA", by decide, fun h => absurd h (by decide)⟩,
        ⟨.vstr "Homo sapiens", by decide⟩, ⟨.vstr "RNA-Seq", by decide⟩⟩
      (by decide) (by decide) (by rfl)
  · exact c7_subannotation_amended.2.2.1 [("GSM1", "Sample2")]
      [("SRX200", c2Bag)] [⟨"SRX200", "SRR1", "L"⟩]
      [("SRX200", c7BagF)] []
      (by
        intro e bag hb
        by_cases he : "SRX200" = e
        · have hbe : bag = c2Bag := by
            simp [lookupA, he] at hb
            exact hb.symm
          rw [hbe]
          decide
        · simp [lookupA, he] at hb)
      (by
        intro e
        have := List.length_filter_le
          (fun r => r.Experiment == e) [(⟨"SRX200", "SRR1", "L"⟩ : SraRow)]
        simpa [runsOf] using this)
      (by rfl)
  · exact c7_subannotation_amended.2.2.2 50 250 500
      [("SRX1", [("sample_name", "s")])]
      (["sample_name", "big_key"], [["s", "SRX1"]]) [] none (by rfl)

/-! ### Claim C3: split-mode multi-run handling -/

theorem string_ext_data (a b : String) (h : a.data = b.data) : a = b := by
  cases a
  cases b
  simp_all

/-- A key never equals itself with a `"_<n>"` suffix appended. -/
theorem key_ne_suffix (s t : String) : s ≠ s ++ "_" ++ t := by
  intro h
  have hl := congrArg String.length h
  rw [String.length_append, String.length_append] at hl
  have h1 : ("_" : String).length = 1 := rfl
  omega

/-- The synthetic record keys `s ++ "_" ++ str(i)` are pairwise distinct. -/
theorem suffix_key_inj (s : String) (i j : Nat)
    (h : s ++ "_" ++ Nat.repr i = s ++ "_" ++ Nat.repr j) : i = j := by
  apply natRepr_injective
  have hd := congrArg String.data h
  rw [String.data_append, String.data_append, String.data_append,
    String.data_append] at hd
  exact string_ext_data _ _ (List.append_cancel_left hd)

/-- Exhaustive characterization of one successful split-mode
`_process_sra_meta` iteration. -/
theorem processSraRow_split_shape (enter : List (String × String))
    (st st' : SraState) (row : SraRow)
    (h : processSraRow true enter st row = some st') :
    (lookupA row.Experiment st.meta = none ∧ st' = st) ∨
    (∃ bag name bag', lookupA row.Experiment st.meta = some bag ∧
      resolveSampleName enter bag = some name ∧
      updateColumns bag row.Experiment name row.LibraryLayout = some bag' ∧
      ((srrSet bag' = false ∧
        st'.meta = setA row.Experiment (setA "SRR" (.vstr row.Run) bag')
          (setA row.Experiment bag' st.meta) ∧
        st'.tab = st.tab) ∨
       (∃ tab₁ entry sn,
         srrSet bag' = true ∧
         lookupA "sample_name" bag' = some (.vstr sn) ∧
         lookupA row.Experiment tab₁ = some entry ∧
         st'.tab = tab₁ ∧
         st'.meta = setA (row.Experiment ++ "_" ++ Nat.repr entry.length)
           (setA "SRR" (.vstr row.Run)
             (setA "sample_name"
               (.vstr (sn ++ "_" ++ Nat.repr entry.length)) bag'))
           (setA row.Experiment bag' st.meta) ∧
         ((∃ srrOld, lookupA "SRR" bag' = some (.vstr srrOld) ∧
            lookupA row.Experiment st.tab = none ∧
            tab₁ = st.tab ++ [(row.Experiment,
              [[name, row.Experiment, srrOld],
               [name, row.Experiment, row.Run]])]) ∨
          (∃ rowsT, lookupA row.Experiment st.tab = some rowsT ∧
            tab₁ = setA row.Experiment
              (rowsT ++ [[name, row.Experiment, row.Run]]) st.tab))))) := by
  unfold processSraRow at h
  dsimp only at h
  cases hbag : lookupA row.Experiment st.meta with
  | none =>
    rw [hbag] at h
    cases h
    exact Or.inl ⟨rfl, rfl⟩
  | some bag =>
    rw [hbag] at h
    dsimp only at h
    cases hres : resolveSampleName enter bag with
    | none => rw [hres] at h; exact absurd h (by simp)
    | some name =>
      rw [hres] at h
      dsimp only at h
      cases hupd : updateColumns bag row.Experiment name row.LibraryLayout with
      | none => rw [hupd] at h; exact absurd h (by simp)
      | some bag' =>
        rw [hupd] at h
        dsimp only at h
        refine Or.inr ⟨bag, name, bag', rfl, hres, hupd, ?_⟩
        by_cases hsrr : srrSet bag' = true
        · rw [if_pos hsrr] at h
          refine Or.inr ?_
          cases hsval : lookupA "SRR" bag' with
          | none =>
            rw [hsval] at h
            dsimp only at h
            cases htv : lookupA row.Experiment st.tab with
            | none => rw [htv] at h; exact absurd h (by simp)
            | some rowsT =>
              rw [htv] at h
              dsimp only at h
              rw [if_pos rfl] at h
              cases hent : lookupA row.Experiment
                  (setA row.Experiment
                    (rowsT ++ [[name, row.Experiment, row.Run]]) st.tab) with
              | none => rw [hent] at h; exact absurd h (by simp)
              | some entry =>
                rw [hent] at h
                try dsimp only at h
                cases hsn : lookupA "sample_name" bag' with
                | none => rw [hsn] at h; exact absurd h (by simp)
                | some w =>
                  cases w with
                  | vstr sn =>
                    rw [hsn] at h
                    dsimp only at h
                    cases h
                    exact ⟨_, entry, sn, hsrr, rfl, hent, rfl, rfl,
                      Or.inr ⟨rowsT, rfl, rfl⟩⟩
                  | vnone => rw [hsn] at h; exact absurd h (by simp)
                  | vlist l => rw [hsn] at h; exact absurd h (by simp)
          | some w =>
            cases w with
            | vstr srrOld =>
              rw [hsval] at h
              dsimp only at h
              by_cases htab : lookupA row.Experiment st.tab = none
              · rw [if_pos htab] at h
                dsimp only at h
                rw [if_pos rfl] at h
                cases hent : lookupA row.Experiment
                    (st.tab ++ [(row.Experiment,
                      [[name, row.Experiment, srrOld],
                       [name, row.Experiment, row.Run]])]) with
                | none => rw [hent] at h; exact absurd h (by simp)
                | some entry =>
                  rw [hent] at h
                  try dsimp only at h
                  cases hsn : lookupA "sample_name" bag' with
                  | none => rw [hsn] at h; exact absurd h (by simp)
                  | some w2 =>
                    cases w2 with
                    | vstr sn =>
                      rw [hsn] at h
                      dsimp only at h
                      cases h
                      exact ⟨_, entry, sn, hsrr, rfl, hent, rfl, rfl,
                        Or.inl ⟨srrOld, rfl, htab, rfl⟩⟩
                    | vnone => rw [hsn] at h; exact absurd h (by simp)
                    | vlist l => rw [hsn] at h; exact absurd h (by simp)
              · rw [if_neg htab] at h
                cases htv : lookupA row.Experiment st.tab with
                | none => exact absurd htv htab
                | some rowsT =>
                  rw [htv] at h
                  dsimp only at h
                  rw [if_pos rfl] at h
                  cases hent : lookupA row.Experiment
                      (setA row.Experiment
                        (rowsT ++ [[name, row.Experiment, row.Run]])
                        st.tab) with
                  | none => rw [hent] at h; exact absurd h (by simp)
                  | some entry =>
                    rw [hent] at h
                    try dsimp only at h
                    cases hsn : lookupA "sample_name" bag' with
                    | none => rw [hsn] at h; exact absurd h (by simp)
                    | some w2 =>
                      cases w2 with
                      | vstr sn =>
                        rw [hsn] at h
                        dsimp only at h
                        cases h
                        exact ⟨_, entry, sn, hsrr, rfl, hent, rfl, rfl,
                          Or.inr ⟨rowsT, rfl, rfl⟩⟩
                      | vnone => rw [hsn] at h; exact absurd h (by simp)
                      | vlist l => rw [hsn] at h; exact absurd h (by simp)
            | vnone =>
              rw [hsval] at h
              dsimp only at h
              cases htv : lookupA row.Experiment st.tab with
              | none => rw [htv] at h; exact absurd h (by simp)
              | some rowsT =>
                rw [htv] at h
                dsimp only at h
                rw [if_pos rfl] at h
                cases hent : lookupA row.Experiment
                    (setA row.Experiment
                      (rowsT ++ [[name, row.Experiment, row.Run]]) st.tab) with
                | none => rw [hent] at h; exact absurd h (by simp)
                | some entry =>
                  rw [hent] at h
                  try dsimp only at h
                  cases hsn : lookupA "sample_name" bag' with
                  | none => rw [hsn] at h; exact absurd h (by simp)
                  | some w2 =>
                    cases w2 with
                    | vstr sn =>
                      rw [hsn] at h
                      dsimp only at h
                      cases h
                      exact ⟨_, entry, sn, hsrr, rfl, hent, rfl, rfl,
                        Or.inr ⟨rowsT, rfl, rfl⟩⟩
                    | vnone => rw [hsn] at h; exact absurd h (by simp)
                    | vlist l => rw [hsn] at h; exact absurd h (by simp)
            | vlist l =>
              rw [hsval] at h
              dsimp only at h
              cases htv : lookupA row.Experiment st.tab with
              | none => rw [htv] at h; exact absurd h (by simp)
              | some rowsT =>
                rw [htv] at h
                dsimp only at h
                rw [if_pos rfl] at h
                cases hent : lookupA row.Experiment
                    (setA row.Experiment
                      (rowsT ++ [[name, row.Experiment, row.Run]]) st.tab) with
                | none => rw [hent] at h; exact absurd h (by simp)
                | some entry =>
                  rw [hent] at h
                  try dsimp only at h
                  cases hsn : lookupA "sample_name" bag' with
                  | none => rw [hsn] at h; exact absurd h (by simp)
                  | some w2 =>
                    cases w2 with
                    | vstr sn =>
                      rw [hsn] at h
                      dsimp only at h
                      cases h
                      exact ⟨_, entry, sn, hsrr, rfl, hent, rfl, rfl,
                        Or.inr ⟨rowsT, rfl, rfl⟩⟩
                    | vnone => rw [hsn] at h; exact absurd h (by simp)
                    | vlist l2 => rw [hsn] at h; exact absurd h (by simp)
        · have hsf : srrSet bag' = false := by
            cases hE : srrSet bag'
            · rfl
            · exact absurd hE hsrr
          rw [if_neg hsrr] at h
          cases h
          exact Or.inl ⟨hsf, rfl, rfl⟩

/-- Key of the `i`-th record for an experiment in split mode: the original
key for `i = 1`, `<SRX>_<i>` for the synthetic clones. -/
def recKey (s : String) (i : Nat) : String :=
  if i = 1 then s else s ++ "_" ++ Nat.repr i

/-- The clone record stored under `<exp>_<i>` carries run `r` and the
suffixed sample name. -/
def cloneFacts (exp name : String) (meta : List (String × Bag)) (i : Nat)
    (r : String) : Prop :=
  ∃ cbag, lookupA (exp ++ "_" ++ Nat.repr i) meta = some cbag ∧
    lookupA "SRR" cbag = some (.vstr r) ∧
    lookupA "sample_name" cbag = some (.vstr (name ++ "_" ++ Nat.repr i))

/-- The per-experiment invariant threaded through the split-mode fold:
after the runs `done` have been processed, the original record holds run
#1's `SRR`, the linkage entry mirrors `done` once it has two runs, and a
clone exists for every processed run after the first. -/
def splitInv (enter : List (String × String)) (exp name : String)
    (done : List String) (st : SraState) : Prop :=
  ∃ bag, lookupA exp st.meta = some bag ∧ goodBag enter bag name ∧
    (done = [] → srrSet bag = false ∧ lookupA exp st.tab = none) ∧
    (∀ r0 t, done = r0 :: t →
      lookupA "SRR" bag = some (.vstr r0) ∧
      lookupA "sample_name" bag = some (.vstr name) ∧
      (t = [] → lookupA exp st.tab = none) ∧
      (t ≠ [] → lookupA exp st.tab
        = some (done.map fun r => [name, exp, r])) ∧
      (∀ i r, 2 ≤ i → done[i-1]? = some r → cloneFacts exp name st.meta i r))

theorem splitInv_step_same (enter : List (String × String)) (exp name : String)
    (done : List String) (st st' : SraState) (row : SraRow)
    (hexp : row.Experiment = exp)
    (hinv : splitInv enter exp name done st)
    (h : processSraRow true enter st row = some st') :
    splitInv enter exp name (done ++ [row.Run]) st' := by
  obtain ⟨bag, hbag, hgood, hnil, hcons⟩ := hinv
  rcases processSraRow_split_shape enter st st' row h with
    ⟨hskip, _⟩ | ⟨bag₂, name₂, bag', hbag₂, hres₂, hupd₂, hcase⟩
  · rw [hexp, hbag] at hskip
    exact absurd hskip (by simp)
  · rw [hexp] at hbag₂ hupd₂ hcase
    rw [hbag] at hbag₂
    have hbeq : bag = bag₂ := by injection hbag₂
    subst hbeq
    have hname₂ : name = name₂ := by
      have hx := hgood.1
      rw [hres₂] at hx
      injection hx with h2
      exact h2.symm
    subst hname₂
    obtain ⟨hgood', hsrr', hsn'⟩ :=
      goodBag_updateColumns enter bag name exp row.LibraryLayout bag'
        hgood hupd₂
    rcases hcase with ⟨hunset', hmeta, htab⟩ |
      ⟨tab₁, entry, sn, hset', hsn₂, hent, htab', hmeta, htcase⟩
    · -- the experiment's SRR is not yet set: this is the first run
      cases done with
      | cons r0 t =>
        exfalso
        obtain ⟨hsrr0, _, _, _, _⟩ := hcons r0 t rfl
        have hsb : srrSet bag' = true := by
          unfold srrSet
          rw [hsrr', hsrr0]
        rw [hsb] at hunset'
        exact Bool.noConfusion hunset'
      | nil =>
        obtain ⟨hsb, htb⟩ := hnil rfl
        refine ⟨setA "SRR" (.vstr row.Run) bag', ?_, ?_, ?_, ?_⟩
        · rw [hmeta]
          exact lookupA_setA_self _ _ _
        · exact goodBag_setA_srr enter name bag' _ hgood'
        · intro hx
          simp at hx
        · intro r0 t hrt
          simp only [List.nil_append] at hrt
          injection hrt with h1 h2
          subst h1
          subst h2
          refine ⟨lookupA_setA_self _ _ _, ?_, ?_, ?_, ?_⟩
          · rw [lookupA_setA_ne (by decide)]
            exact hsn'
          · intro _
            rw [htab]
            exact htb
          · intro hne
            exact absurd rfl hne
          · intro i r h2i hget
            have hb := (List.getElem?_eq_some.mp hget).1
            simp at hb
            omega
    · -- the experiment's SRR is already set: clone branch
      cases done with
      | nil =>
        exfalso
        obtain ⟨hsb, _⟩ := hnil rfl
        rw [srrSet_congr bag bag' hsrr', hsb] at hset'
        exact Bool.noConfusion hset'
      | cons r0 t =>
        obtain ⟨hsrr0, hsn0, htabNil, htabCons, hclones⟩ := hcons r0 t rfl
        have hsneq : sn = name := by
          rw [hsn'] at hsn₂
          injection hsn₂ with h2
          injection h2 with h3
          exact h3.symm
        rw [hsneq] at hmeta
        rcases htcase with ⟨srrOld, hsval, htabn, htabEq⟩ |
          ⟨rowsT, htabS, htabEq⟩
        · -- second run: the two-row entry is seeded
          cases t with
          | cons t0 ts =>
            exfalso
            have hTC := htabCons (by simp)
            rw [htabn] at hTC
            exact absurd hTC (by simp)
          | nil =>
            have hsrrOld : srrOld = r0 := by
              rw [hsrr', hsrr0] at hsval
              injection hsval with h2
              injection h2 with h3
              exact h3.symm
            rw [hsrrOld] at htabEq
            have hentry : entry = [[name, exp, r0], [name, exp, row.Run]] := by
              rw [htabEq, lookupA_append, htabNil rfl] at hent
              simp [lookupA, Option.or] at hent
              exact hent.symm
            subst hentry
            refine ⟨bag', ?_, hgood', ?_, ?_⟩
            · rw [hmeta, lookupA_setA_ne (Ne.symm (key_ne_suffix _ _)),
                lookupA_setA_self]
            · intro hx
              simp at hx
            · intro r0' t' hrt
              simp only [List.cons_append, List.nil_append] at hrt
              injection hrt with h1 h2
              subst h1
              subst h2
              refine ⟨?_, hsn', ?_, ?_, ?_⟩
              · rw [hsrr']
                exact hsrr0
              · intro hx
                exact absurd hx (by simp)
              · intro _
                rw [htab', htabEq, lookupA_append, htabNil rfl]
                simp [lookupA, Option.or]
              · intro i r h2i hget
                have hb := (List.getElem?_eq_some.mp hget).1
                simp at hb
                have hieq : i = 2 := by omega
                subst hieq
                have hx : ([r0] ++ [row.Run])[(2:Nat) - 1]? = some row.Run := rfl
                rw [hx] at hget
                injection hget with hr
                subst hr
                refine ⟨setA "SRR" (.vstr row.Run)
                  (setA "sample_name"
                    (.vstr (name ++ "_" ++ Nat.repr 2)) bag'), ?_, ?_, ?_⟩
                · rw [hmeta]
                  exact lookupA_setA_self _ _ _
                · exact lookupA_setA_self _ _ _
                · rw [lookupA_setA_ne (by decide)]
                  exact lookupA_setA_self _ _ _
        · -- third or later run: append to the existing entry
          cases t with
          | nil =>
            exfalso
            rw [htabNil rfl] at htabS
            exact absurd htabS (by simp)
          | cons t0 ts =>
            have hTC := htabCons (by simp)
            rw [hTC] at htabS
            injection htabS with hrw
            subst hrw
            have hentry : entry
                = (r0 :: t0 :: ts).map (fun r => [name, exp, r])
                  ++ [[name, exp, row.Run]] := by
              rw [htabEq, lookupA_setA_self] at hent
              injection hent with h2
              exact h2.symm
            subst hentry
            have hlen : (((r0 :: t0 :: ts).map (fun r => [name, exp, r])
                ++ [[name, exp, row.Run]]).length)
                = (r0 :: t0 :: ts).length + 1 := by
              simp
            rw [hlen] at hmeta
            refine ⟨bag', ?_, hgood', ?_, ?_⟩
            · rw [hmeta, lookupA_setA_ne (Ne.symm (key_ne_suffix _ _)),
                lookupA_setA_self]
            · intro hx
              simp at hx
            · intro r0' t' hrt
              simp only [List.cons_append] at hrt
              injection hrt with h1 h2
              subst h1
              subst h2
              refine ⟨?_, hsn', ?_, ?_, ?_⟩
              · rw [hsrr']
                exact hsrr0
              · intro hx
                simp at hx
              · intro _
                rw [htab', htabEq, lookupA_setA_self, List.map_append]
                rfl
              · intro i r h2i hget
                rcases lt_trichotomy (i - 1) (r0 :: t0 :: ts).length with
                  hlt | heq | hgt
                · rw [List.getElem?_append] at hget
                  rw [if_pos hlt] at hget
                  obtain ⟨cbag, hck, hcs, hcn⟩ := hclones i r h2i hget
                  have hne1 : exp ++ "_" ++ Nat.repr i
                      ≠ exp ++ "_" ++ Nat.repr ((r0 :: t0 :: ts).length + 1) := by
                    intro hx
                    have hxi := suffix_key_inj exp _ _ hx
                    simp only [List.length_cons] at hxi hlt
                    omega
                  refine ⟨cbag, ?_, hcs, hcn⟩
                  rw [hmeta, lookupA_setA_ne (Ne.symm hne1),
                    lookupA_setA_ne (key_ne_suffix _ _)]
                  exact hck
                · rw [List.getElem?_append] at hget
                  rw [if_neg (by omega)] at hget
                  rw [show i - 1 - (r0 :: t0 :: ts).length = 0 from by omega]
                    at hget
                  simp only [List.getElem?_cons_zero] at hget
                  injection hget with hr
                  subst hr
                  have hieq : i = (r0 :: t0 :: ts).length + 1 := by omega
                  subst hieq
                  refine ⟨setA "SRR" (.vstr row.Run)
                    (setA "sample_name"
                      (.vstr (name ++ "_"
                        ++ Nat.repr ((r0 :: t0 :: ts).length + 1))) bag'),
                    ?_, ?_, ?_⟩
                  · rw [hmeta]
                    exact lookupA_setA_self _ _ _
                  · exact lookupA_setA_self _ _ _
                  · rw [lookupA_setA_ne (by decide)]
                    exact lookupA_setA_self _ _ _
                · have hb := (List.getElem?_eq_some.mp hget).1
                  simp at hb
                  simp only [List.length_cons] at hgt
                  omega

/-- The key `a ++ "_" ++ s` always contains an underscore. -/
theorem underscore_mem_key (a s : String) :
    ('_' : Char) ∈ (a ++ "_" ++ s).data := by
  rw [String.data_append, String.data_append]
  refine List.mem_append_left _ (List.mem_append_right _ ?_)
  decide

/-- A clone key `a ++ "_" ++ s` never equals an underscore-free key. -/
theorem key_ne_uf (a s b : String) (hb : ('_' : Char) ∉ b.data) :
    a ++ "_" ++ s ≠ b := by
  intro h
  apply hb
  rw [← h]
  exact underscore_mem_key a s

/-- Splitting at the first underscore: two underscore-free prefixes
followed by `'_'` agree when the whole strings agree. -/
theorem underscore_split_inj : ∀ (a b u v : List Char),
    ('_' : Char) ∉ a → ('_' : Char) ∉ b →
    a ++ '_' :: u = b ++ '_' :: v → a = b := by
  intro a
  induction a with
  | nil =>
    intro b u v _ hb h
    cases b with
    | nil => rfl
    | cons c bs =>
      exfalso
      simp only [List.nil_append, List.cons_append] at h
      injection h with h1 h2
      subst h1
      exact hb (List.mem_cons_self _ _)
  | cons d as ih =>
    intro b u v ha hb h
    cases b with
    | nil =>
      exfalso
      simp only [List.cons_append, List.nil_append] at h
      injection h with h1 h2
      subst h1
      exact ha (List.mem_cons_self _ _)
    | cons e bs =>
      simp only [List.cons_append] at h
      injection h with h1 h2
      have has : ('_' : Char) ∉ as := fun hx => ha (List.mem_cons_of_mem _ hx)
      have hbs : ('_' : Char) ∉ bs := fun hx => hb (List.mem_cons_of_mem _ hx)
      rw [h1, ih bs u v has hbs h2]

/-- Two clone keys built over underscore-free experiment names agree only
when the experiment names agree. -/
theorem key_sep (e1 e2 s t : String)
    (h1 : ('_' : Char) ∉ e1.data) (h2 : ('_' : Char) ∉ e2.data)
    (h : e1 ++ "_" ++ s = e2 ++ "_" ++ t) : e1 = e2 := by
  have hd := congrArg String.data h
  rw [String.data_append, String.data_append, String.data_append,
    String.data_append] at hd
  rw [List.append_assoc, List.append_assoc] at hd
  have hu : ("_" : String).data = ['_'] := rfl
  rw [hu, List.singleton_append, List.singleton_append] at hd
  exact string_ext_data _ _
    (underscore_split_inj e1.data e2.data s.data t.data h1 h2 hd)

/-- A row of another (underscore-free) experiment leaves the record,
the clone records and the linkage entry of `exp` untouched. -/
theorem splitInv_step_other (enter : List (String × String))
    (exp name : String) (done : List String) (st st' : SraState)
    (row : SraRow) (hexp : row.Experiment ≠ exp)
    (hue : ('_' : Char) ∉ exp.data)
    (hue2 : ('_' : Char) ∉ row.Experiment.data)
    (hinv : splitInv enter exp name done st)
    (h : processSraRow true enter st row = some st') :
    splitInv enter exp name done st' := by
  rcases processSraRow_split_shape enter st st' row h with
    ⟨_, hst⟩ | ⟨bag₂, name₂, bag', hbag₂, hres₂, hupd₂, hcase⟩
  · rw [hst]
    exact hinv
  · have hml : lookupA exp st'.meta = lookupA exp st.meta := by
      rcases hcase with ⟨_, hmeta, _⟩ |
        ⟨tab₁, entry, sn, _, _, _, _, hmeta, _⟩
      · rw [hmeta, lookupA_setA_ne hexp, lookupA_setA_ne hexp]
      · rw [hmeta, lookupA_setA_ne (key_ne_uf _ _ _ hue),
          lookupA_setA_ne hexp]
    have hcl : ∀ s, lookupA (exp ++ "_" ++ s) st'.meta
        = lookupA (exp ++ "_" ++ s) st.meta := by
      intro s
      have hne2 : row.Experiment ≠ exp ++ "_" ++ s :=
        Ne.symm (key_ne_uf _ _ _ hue2)
      rcases hcase with ⟨_, hmeta, _⟩ |
        ⟨tab₁, entry, sn, _, _, _, _, hmeta, _⟩
      · rw [hmeta, lookupA_setA_ne hne2, lookupA_setA_ne hne2]
      · have hne3 : row.Experiment ++ "_" ++ Nat.repr entry.length
            ≠ exp ++ "_" ++ s :=
          fun hx => hexp (key_sep _ _ _ _ hue2 hue hx)
        rw [hmeta, lookupA_setA_ne hne3, lookupA_setA_ne hne2]
    have htl : lookupA exp st'.tab = lookupA exp st.tab := by
      rcases hcase with ⟨_, _, htab⟩ |
        ⟨tab₁, entry, sn, _, _, _, htab', _, htc⟩
      · rw [htab]
      · rcases htc with ⟨srrOld, _, _, htabEq⟩ | ⟨rowsT, _, htabEq⟩
        · rw [htab', htabEq, lookupA_append]
          simp only [lookupA, if_neg hexp]
          cases lookupA exp st.tab <;> rfl
        · rw [htab', htabEq, lookupA_setA_ne hexp]
    obtain ⟨bag, hbag, hgood, hnil, hcons⟩ := hinv
    refine ⟨bag, ?_, hgood, ?_, ?_⟩
    · rw [hml]
      exact hbag
    · intro hdn
      refine ⟨(hnil hdn).1, ?_⟩
      rw [htl]
      exact (hnil hdn).2
    · intro r0 t hrt
      obtain ⟨ha, hb, hc, hd, he⟩ := hcons r0 t hrt
      refine ⟨ha, hb, ?_, ?_, ?_⟩
      · intro ht
        rw [htl]
        exact hc ht
      · intro ht
        rw [htl]
        exact hd ht
      · intro i r h2i hget
        obtain ⟨cbag, hck, hcs, hcn⟩ := he i r h2i hget
        refine ⟨cbag, ?_, hcs, hcn⟩
        rw [hcl]
        exact hck

theorem splitInv_step (enter : List (String × String)) (exp name : String)
    (done : List String) (st st' : SraState) (row : SraRow)
    (hue : ('_' : Char) ∉ exp.data)
    (hue2 : ('_' : Char) ∉ row.Experiment.data)
    (hinv : splitInv enter exp name done st)
    (h : processSraRow true enter st row = some st') :
    splitInv enter exp name
      (done ++ if row.Experiment = exp then [row.Run] else []) st' := by
  by_cases hexp : row.Experiment = exp
  · rw [if_pos hexp]
    exact splitInv_step_same enter exp name done st st' row hexp hinv h
  · rw [if_neg hexp, List.append_nil]
    exact splitInv_step_other enter exp name done st st' row hexp hue hue2
      hinv h

theorem splitInv_fold (enter : List (String × String)) (exp name : String)
    (hue : ('_' : Char) ∉ exp.data) :
    ∀ (rows : List SraRow) (done : List String) (st st' : SraState),
      (∀ r ∈ rows, ('_' : Char) ∉ r.Experiment.data) →
      splitInv enter exp name done st →
      rows.foldlM (processSraRow true enter) st = some st' →
      splitInv enter exp name (done ++ runsOf exp rows) st' := by
  intro rows
  induction rows with
  | nil =>
    intro done st st' _ hinv h
    simp only [List.foldlM_nil, Option.pure_def, Option.some.injEq] at h
    rw [← h]
    simpa [runsOf] using hinv
  | cons row rest ih =>
    intro done st st' hux hinv h
    simp only [List.foldlM_cons, Option.bind_eq_bind] at h
    cases h1 : processSraRow true enter st row with
    | none => rw [h1] at h; exact absurd h (by simp)
    | some st₁ =>
      rw [h1] at h
      simp only [Option.some_bind] at h
      have hstep := splitInv_step enter exp name done st st₁ row hue
        (hux row (List.mem_cons_self _ _)) hinv h1
      have hrest := ih (done ++ if row.Experiment = exp then [row.Run] else [])
        st₁ st' (fun r hr => hux r (List.mem_cons_of_mem _ hr)) hstep h
      rw [runsOf_cons, ← List.append_assoc]
      exact hrest

/-- **C3.** In split mode, for every experiment (underscore-free SRX
accessions) whose record is initially good with `SRR` unset and which has
`N ≥ 2` runs among the SRA rows — rows of other experiments may be
interleaved arbitrarily — `_process_sra_meta` keeps the original `<SRX>`
record on run #1's `SRR` and creates synthetic records
`<SRX>_2 … <SRX>_N`: record `i` holds run `i`'s id as `SRR` and the
resolved sample name suffixed with `_<i>`; when the run ids are distinct,
no two of the `N` records share an `SRR` value. -/
theorem c3_split_clones (enter : List (String × String))
    (meta₀ : List (String × Bag)) (rows : List SraRow)
    (metaF : List (String × Bag))
    (tabF : List (String × List (List String)))
    (exp name : String) (bag₀ : Bag)
    (hbag : lookupA exp meta₀ = some bag₀)
    (hgood : goodBag enter bag₀ name)
    (hunset : srrSet bag₀ = false)
    (hux : ∀ r ∈ rows, ('_' : Char) ∉ r.Experiment.data)
    (hN : 2 ≤ (runsOf exp rows).length)
    (hrun : processSraMeta true enter meta₀ rows = some (metaF, tabF)) :
    (∀ i, 1 ≤ i → i ≤ (runsOf exp rows).length →
      ∃ b r, lookupA (recKey exp i) metaF = some b ∧
        (runsOf exp rows)[i-1]? = some r ∧
        lookupA "SRR" b = some (.vstr r) ∧
        lookupA "sample_name" b = some (.vstr (recKey name i))) ∧
    ((runsOf exp rows).Nodup →
      ∀ i j bi bj v, 1 ≤ i → i ≤ (runsOf exp rows).length →
        1 ≤ j → j ≤ (runsOf exp rows).length →
        lookupA (recKey exp i) metaF = some bi →
        lookupA (recKey exp j) metaF = some bj →
        lookupA "SRR" bi = some v → lookupA "SRR" bj = some v → i = j) := by
  have hue : ('_' : Char) ∉ exp.data := by
    cases hf : rows.filter (fun r => r.Experiment == exp) with
    | nil =>
      exfalso
      unfold runsOf at hN
      rw [hf] at hN
      simp at hN
    | cons a l =>
      have ham : a ∈ rows.filter (fun r => r.Experiment == exp) := by
        rw [hf]
        exact List.mem_cons_self _ _
      have h2 := List.mem_filter.mp ham
      have hae : a.Experiment = exp := by simpa using h2.2
      rw [← hae]
      exact hux a h2.1
  unfold processSraMeta at hrun
  cases hfold : rows.foldlM (processSraRow true enter) ⟨meta₀, []⟩ with
  | none => rw [hfold] at hrun; exact absurd hrun (by simp)
  | some stF =>
    rw [hfold] at hrun
    simp only [Option.map_some', Option.some.injEq, Prod.mk.injEq] at hrun
    have hinv0 : splitInv enter exp name [] ⟨meta₀, []⟩ :=
      ⟨bag₀, hbag, hgood, fun _ => ⟨hunset, rfl⟩,
        fun r0 t hc => absurd hc (by simp)⟩
    have hinvF := splitInv_fold enter exp name hue rows [] ⟨meta₀, []⟩ stF
      hux hinv0 hfold
    simp only [List.nil_append] at hinvF
    obtain ⟨bagF, hbagF, hgoodF, hnilF, hconsF⟩ := hinvF
    have hmF : stF.meta = metaF := hrun.1
    rw [hmF] at hbagF hconsF
    have hpart1 : ∀ i, 1 ≤ i → i ≤ (runsOf exp rows).length →
        ∃ b r, lookupA (recKey exp i) metaF = some b ∧
          (runsOf exp rows)[i-1]? = some r ∧
          lookupA "SRR" b = some (.vstr r) ∧
          lookupA "sample_name" b = some (.vstr (recKey name i)) := by
      intro i h1i hiN
      cases hruns : runsOf exp rows with
      | nil =>
        exfalso
        rw [hruns] at hiN
        simp at hiN
        omega
      | cons r0 t =>
        obtain ⟨hSRR0, hSN0, _, _, hclonesF⟩ := hconsF r0 t hruns
        by_cases hi1 : i = 1
        · subst hi1
          refine ⟨bagF, r0, ?_, ?_, hSRR0, ?_⟩
          · simp only [recKey, if_pos rfl]
            exact hbagF
          · show (r0 :: t)[0]? = some r0
            simp
          · simp only [recKey, if_pos rfl]
            exact hSN0
        · have hlt : i - 1 < (runsOf exp rows).length := by omega
          have hget : (runsOf exp rows)[i-1]?
              = some (runsOf exp rows)[i-1] :=
            List.getElem?_eq_getElem hlt
          have hget2 : (r0 :: t)[i-1]? = some (runsOf exp rows)[i-1] := by
            rw [← hruns]
            exact hget
          obtain ⟨cbag, hck, hcs, hcn⟩ :=
            hclonesF i (runsOf exp rows)[i-1] (by omega) hget
          refine ⟨cbag, (runsOf exp rows)[i-1], ?_, hget2, hcs, ?_⟩
          · simp only [recKey, if_neg hi1]
            exact hck
          · simp only [recKey, if_neg hi1]
            exact hcn
    refine ⟨hpart1, ?_⟩
    intro hnd i j bi bj v h1i hiN h1j hjN hbi hbj hvi hvj
    obtain ⟨b, r, hb, hr, hbs, _⟩ := hpart1 i h1i hiN
    obtain ⟨b', r', hb', hr', hbs', _⟩ := hpart1 j h1j hjN
    rw [hbi] at hb
    have hbe : bi = b := by injection hb
    subst hbe
    rw [hbj] at hb'
    have hbe' : bj = b' := by injection hb'
    subst hbe'
    rw [hvi] at hbs
    rw [hvj] at hbs'
    have hv1 : v = Val.vstr r := by injection hbs
    have hv2 : v = Val.vstr r' := by injection hbs'
    have hrr : r = r' := by
      rw [hv1] at hv2
      injection hv2
    subst hrr
    have hlt_i : i - 1 < (runsOf exp rows).length :=
      (List.getElem?_eq_some.mp hr).1
    have hlt_j : j - 1 < (runsOf exp rows).length :=
      (List.getElem?_eq_some.mp hr').1
    rw [List.getElem?_eq_getElem hlt_i] at hr
    rw [List.getElem?_eq_getElem hlt_j] at hr'
    injection hr with hre
    injection hr' with hre2
    have hij : i - 1 = j - 1 :=
      (List.Nodup.getElem_inj_iff hnd).mp (hre.trans hre2.symm)
    omega

/-- A second experiment's initial record, interleaved with `c2Bag`'s. -/
def c3BagB : Bag :=
  [("sample_name", .vstr ""), ("protocol", .vstr ""), ("organism", .vstr ""),
   ("read_type", .vstr ""), ("data_source", .vnone), ("SRR", .vnone),
   ("SRX", .vnone), ("Sample_title", .vstr "Kidney, rep 1"),
   ("Sample_library_selection", .vstr "cDNA"),
   ("Sample_organism_ch1", .vstr "Homo sapiens"),
   ("Sample_library_strategy", .vstr "RNA-Seq"),
   ("gsm_id", .vstr "GSM2")]

/-- Five SRA rows: three runs of `SRX200` interleaved with two runs of
`SRX300`. -/
def c3Rows : List SraRow :=
  [⟨"SRX200", "SRR20", "PAIRED"⟩, ⟨"SRX300", "SRR30", "SINGLE"⟩,
   ⟨"SRX200", "SRR21", "PAIRED"⟩, ⟨"SRX300", "SRR31", "SINGLE"⟩,
   ⟨"SRX200", "SRR22", "SINGLE"⟩]

/-- The metadata produced by split-mode `_process_sra_meta` on `c3Rows`:
both originals plus the `SRX200_2`, `SRX300_2`, `SRX200_3` clones, in
creation order. -/
def c3MetaF : List (String × Bag) :=
  [("SRX200",
    [("sample_name", Val.vstr "Sample2"),
     ("protocol", Val.vstr "cDNA"),
     ("organism", Val.vstr "Homo sapiens"),
     ("read_type", Val.vstr "SINGLE"),
     ("data_source", Val.vstr "SRA"),
     ("SRR", Val.vstr "SRR20"),
     ("SRX", Val.vstr "SRX200"),
     ("Sample_title", Val.vstr "Liver, rep 1"),
     ("Sample_library_selection", Val.vstr "cDNA"),
     ("Sample_organism_ch1", Val.vstr "Homo sapiens"),
     ("Sample_library_strategy", Val.vstr "RNA-Seq"),
     ("gsm_id", Val.vstr "GSM1")]),
   ("SRX300",
    [("sample_name", Val.vstr "Sample3"),
     ("protocol", Val.vstr "cDNA"),
     ("organism", Val.vstr "Homo sapiens"),
     ("read_type", Val.vstr "SINGLE"),
     ("data_source", Val.vstr "SRA"),
     ("SRR", Val.vstr "SRR30"),
     ("SRX", Val.vstr "SRX300"),
     ("Sample_title", Val.vstr "Kidney, rep 1"),
     ("Sample_library_selection", Val.vstr "cDNA"),
     ("Sample_organism_ch1", Val.vstr "Homo sapiens"),
     ("Sample_library_strategy", Val.vstr "RNA-Seq"),
     ("gsm_id", Val.vstr "GSM2")]),
   ("SRX200_2",
    [("sample_name", Val.vstr "Sample2_2"),
     ("protocol", Val.vstr "cDNA"),
     ("organism", Val.vstr "Homo sapiens"),
     ("read_type", Val.vstr "PAIRED"),
     ("data_source", Val.vstr "SRA"),
     ("SRR", Val.vstr "SRR21"),
     ("SRX", Val.vstr "SRX200"),
     ("Sample_title", Val.vstr "Liver, rep 1"),
     ("Sample_library_selection", Val.vstr "cDNA"),
     ("Sample_organism_ch1", Val.vstr "Homo sapiens"),
     ("Sample_library_strategy", Val.vstr "RNA-Seq"),
     ("gsm_id", Val.vstr "GSM1")]),
   ("SRX300_2",
    [("sample_name", Val.vstr "Sample3_2"),
     ("protocol", Val.vstr "cDNA"),
     ("organism", Val.vstr "Homo sapiens"),
     ("read_type", Val.vstr "SINGLE"),
     ("data_source", Val.vstr "SRA"),
     ("SRR", Val.vstr "SRR31"),
     ("SRX", Val.vstr "SRX300"),
     ("Sample_title", Val.vstr "Kidney, rep 1"),
     ("Sample_library_selection", Val.vstr "cDNA"),
     ("Sample_organism_ch1", Val.vstr "Homo sapiens"),
     ("Sample_library_strategy", Val.vstr "RNA-Seq"),
     ("gsm_id", Val.vstr "GSM2")]),
   ("SRX200_3",
    [("sample_name", Val.vstr "Sample2_3"),
     ("protocol", Val.vstr "cDNA"),
     ("organism", Val.vstr "Homo sapiens"),
     ("read_type", Val.vstr "SINGLE"),
     ("data_source", Val.vstr "SRA"),
     ("SRR", Val.vstr "SRR22"),
     ("SRX", Val.vstr "SRX200"),
     ("Sample_title", Val.vstr "Liver, rep 1"),
     ("Sample_library_selection", Val.vstr "cDNA"),
     ("Sample_organism_ch1", Val.vstr "Homo sapiens"),
     ("Sample_library_strategy", Val.vstr "RNA-Seq"),
     ("gsm_id", Val.vstr "GSM1")])]

/-- The linkage table produced alongside `c3MetaF`. -/
def c3TabF : List (String × List (List String)) :=
  [("SRX200", [["Sample2", "SRX200", "SRR20"],
               ["Sample2", "SRX200", "SRR21"],
               ["Sample2", "SRX200", "SRR22"]]),
   ("SRX300", [["Sample3", "SRX300", "SRR30"],
               ["Sample3", "SRX300", "SRR31"]])]

theorem c3_split_clones_witness :
    (∀ i, 1 ≤ i → i ≤ (runsOf "SRX200" c3Rows).length →
      ∃ b r, lookupA (recKey "SRX200" i) c3MetaF = some b ∧
        (runsOf "SRX200" c3Rows)[i-1]? = some r ∧
        lookupA "SRR" b = some (.vstr r) ∧
        lookupA "sample_name" b = some (.vstr (recKey "Sample2" i))) ∧
    ((runsOf "SRX200" c3Rows).Nodup →
      ∀ i j bi bj v, 1 ≤ i → i ≤ (runsOf "SRX200" c3Rows).length →
        1 ≤ j → j ≤ (runsOf "SRX200" c3Rows).length →
        lookupA (recKey "SRX200" i) c3MetaF = some bi →
        lookupA (recKey "SRX200" j) c3MetaF = some bj →
        lookupA "SRR" bi = some v → lookupA "SRR" bj = some v → i = j) :=
  c3_split_clones [("GSM1", "Sample2"), ("GSM2", "Sample3")]
    [("SRX200", c2Bag), ("SRX300", c3BagB)] c3Rows
    c3MetaF c3TabF "SRX200" "Sample2" c2Bag (by decide)
    ⟨by decide, ⟨.vstr "cDNA", by decide, fun h => absurd h (by decide)⟩,
      ⟨.vstr "Homo sapiens", by decide⟩, ⟨.vstr "RNA-Seq", by decide⟩⟩
    (by decide) (by decide) (by decide) (by rfl)
